import Mathlib

/-!
Shallow embedding of the EIP-712 typed-data signer (EIP712Signer.ts).

Modelling conventions:
* JS byte buffers and 0x-prefixed hex strings that denote byte sequences are
  modelled as `Bytes := List Nat` (each entry a byte value below 256); the final
  hex rendering of `encode` is modelled explicitly with `bytesToHex`.
* The external keccak-256 capability is a parameter `keccak : Bytes → Bytes`.
* Dynamic JS values (message records, field values) are the inductive `Value`.
* The external ABI tuple encoder is modelled concretely for the static
  elementary types this library hands to it (every field is reduced to one
  32-byte word by the encoder): `abiWord` and `abiEncode`.
* JS exceptions are modelled with `Except EIP712Error`; runtime TypeErrors that
  the source can raise (hashing a non-string, iterating a non-array, ABI coder
  failures) are collapsed into the single constructor `valueError`.
* The two recursive walks of the source (dependency resolution and data
  encoding) are embedded with an explicit fuel argument so that every
  definition is structurally recursive and executable; fuel exhaustion is
  `none` / `fuelExhausted`, and for dependency resolution we prove a
  sufficiency theorem showing a computable fuel bound never exhausts.
-/

/-- A sequence of byte values (each below 256). -/
abbrev Bytes := List Nat

/-- Field in a user defined type (source: EIP712StructField). -/
structure EIP712StructField where
  name : String
  type : String
deriving DecidableEq, Repr

/-- User defined types are just an array of the fields they contain. -/
abbrev EIP712Struct := List EIP712StructField

/-- The registered type table of a signer: name to field list, in insertion
order (source: the private member `structs`). -/
abbrev Structs := List (String × EIP712Struct)

/-- The reserved EIP712Domain type (source: EIP712DomainType). -/
def EIP712DomainType : EIP712Struct :=
  [ { name := "name", type := "string" },
    { name := "version", type := "string" },
    { name := "chainId", type := "uint256" },
    { name := "verifyingContract", type := "address" } ]

/-- Error taxonomy of the signer; each constructor models one family of
exceptions thrown by the source. -/
inductive EIP712Error where
  | duplicateType (name : String)
  | missingField (typeName fieldName : String)
  | invalidPayloadShape
  | typeCountMismatch
  | unknownType (name : String)
  | fieldMismatch (typeName fieldName : String)
  | missingDomainField (name : String)
  | unknownPrimaryType (name : String)
  | valueError
  | fuelExhausted
deriving DecidableEq, Repr

/-- Dynamic JS value: message records, field values, domain records. `vBN`
is an arbitrary-precision integer object (bn.js), `vNum` a native number (we
model the numeric values that occur here as naturals), `vBytes` a byte
sequence (a 0x hex string denoting bytes in the source). -/
inductive Value where
  | vNull
  | vStr (s : String)
  | vNum (n : Nat)
  | vBN (n : Nat)
  | vBool (b : Bool)
  | vBytes (b : Bytes)
  | vArr (elems : List Value)
  | vObj (fields : List (String × Value))

/-- Association lookup in a record value (JS property access; `none` models
`undefined`). -/
def lookupField : List (String × Value) → String → Option Value
  | [], _ => none
  | (k, v) :: rest, name => if k = name then some v else lookupField rest name

/-- Association lookup in the type table (JS `this.structs[name]`). -/
def lookupStruct : Structs → String → Option EIP712Struct
  | [], _ => none
  | (k, s) :: rest, name => if k = name then some s else lookupStruct rest name

/-- Byte32 zero value (source constant B32Z, a 64-zero hex string, modelled at
byte level). -/
def B32Z : Value := Value.vBytes (List.replicate 32 0)

/-- UTF-8 encoding of one code point. -/
def utf8Bytes (c : Nat) : Bytes :=
  if c < 128 then [c]
  else if c < 2048 then [192 + c / 64, 128 + c % 64]
  else if c < 65536 then [224 + c / 4096, 128 + c / 64 % 64, 128 + c % 64]
  else [240 + c / 262144, 128 + c / 4096 % 64, 128 + c / 64 % 64, 128 + c % 64]

/-- UTF-8 bytes of a string (JS Buffer.from with utf8 encoding). -/
def strToBytes (s : String) : Bytes :=
  (s.data.map (fun c => utf8Bytes c.toNat)).flatten

/-- Lowercase hex rendering of a byte sequence (JS Buffer.toString with hex encoding). -/
def bytesToHex (b : Bytes) : String :=
  String.mk ((b.map (fun x => [Nat.digitChar (x / 16), Nat.digitChar (x % 16)])).flatten)

/-- Value of one hex digit character, if any. -/
def hexCharVal : Char → Option Nat
  | c =>
    if 48 ≤ c.toNat ∧ c.toNat ≤ 57 then some (c.toNat - 48)
    else if 97 ≤ c.toNat ∧ c.toNat ≤ 102 then some (c.toNat - 87)
    else if 65 ≤ c.toNat ∧ c.toNat ≤ 70 then some (c.toNat - 55)
    else none

/-- Parse a hex character list, two characters per byte (JS
JS Buffer.from with hex encoding; odd length or a bad digit fails). -/
def parseHexChars : List Char → Option Bytes
  | [] => some []
  | [_] => none
  | a :: b :: rest =>
    match hexCharVal a, hexCharVal b with
    | some va, some vb =>
      match parseHexChars rest with
      | some bs => some ((va * 16 + vb) :: bs)
      | none => none
    | _, _ => none

/-- Parse a hex string without a 0x marker into bytes. -/
def parseHexBytes (s : String) : Option Bytes := parseHexChars s.data

/-- Big-endian byte sequence to natural number (bn.js buffer constructor). -/
def beBytesToNat (bs : Bytes) : Nat := bs.foldl (fun acc b => acc * 256 + b) 0

/-- Little-endian base-256 digits of a number, with fuel bounding the number
of digits produced. -/
def natBytesLE : Nat → Nat → Bytes
  | 0, _ => []
  | f + 1, n => if n = 0 then [] else n % 256 :: natBytesLE f (n / 256)

/-- Minimal big-endian byte representation of a natural number, at least one
byte (bn.js `toArray()`). -/
def natMinBytes (n : Nat) : Bytes :=
  if n = 0 then [0] else (natBytesLE n n).reverse

/-- Big-endian representation of a natural number zero-extended to `len`
bytes; used to model the ABI word of a numeric value. -/
def natToWord (len : Nat) (n : Nat) : Bytes :=
  List.replicate (len - (natMinBytes n).length) 0 ++ natMinBytes n

/-- Little-endian decimal digit characters of a number, with fuel. -/
def decCharsLE : Nat → Nat → List Char
  | 0, _ => []
  | f + 1, n => if n = 0 then [] else Nat.digitChar (n % 10) :: decCharsLE f (n / 10)

/-- Canonical decimal rendering of a natural number (bn.js `toString()`). -/
def natToDecStr (n : Nat) : String :=
  if n = 0 then "0" else String.mk (decCharsLE n n).reverse

/-- Value of one decimal digit character, if any. -/
def decCharVal : Char → Option Nat
  | c => if '0' ≤ c ∧ c ≤ '9' then some (c.toNat - 48) else none

/-- Accumulating decimal parser over a character list. -/
def parseDecChars : List Char → Nat → Option Nat
  | [], acc => some acc
  | c :: cs, acc =>
    match decCharVal c with
    | some d => parseDecChars cs (acc * 10 + d)
    | none => none

/-- Parse a nonempty decimal string (the fragment of the external big-number
parser that this library relies on). -/
def parseDecStr (s : String) : Option Nat :=
  if s.data = [] then none else parseDecChars s.data 0

/-- Lexicographic comparison of character lists by code point; the order the
JS default array sort uses on the (ASCII) type names occurring here. -/
def charListLe : List Char → List Char → Bool
  | [], _ => true
  | _ :: _, [] => false
  | a :: as, b :: bs =>
    if a.toNat < b.toNat then true
    else if b.toNat < a.toNat then false
    else charListLe as bs

/-- String comparison used to sort dependency lists. -/
def strLe (a b : String) : Bool := charListLe a.data b.data

/-- The JS test `type.lastIndexOf('[]') === type.length - 2`. For strings of
length at least two this says the string ends with `[]`; note that every
one-character string also passes (lastIndexOf is -1 and length - 2 is -1). -/
def hasArraySuffix (t : String) : Bool :=
  t.data.length == 1 ||
    (decide (2 ≤ t.data.length) && t.data.drop (t.data.length - 2) == ['[', ']'])

/-- The JS `type.slice(0, type.lastIndexOf('[]'))` under the test above:
drop the final two characters (for a one-character string this is empty). -/
def stripArraySuffix (t : String) : String :=
  String.mk (t.data.take (t.data.length - 2))

/-- Adds the provided type to the type list (source: addType). -/
def addType (structs : Structs) (name : String) (struct : EIP712Struct) :
    Except EIP712Error Structs :=
  if (lookupStruct structs name).isSome then .error (.duplicateType name)
  else .ok (structs ++ [(name, struct)])

/-- The constructor of the signer: the type table starts with the reserved
EIP712Domain entry and the provided (name, struct) pairs are added in order. -/
def mkSignerStructs (types : List (String × EIP712Struct)) : Except EIP712Error Structs :=
  types.foldlM (fun acc t => addType acc t.1 t.2) [("EIP712Domain", EIP712DomainType)]

example : strLe "Mail" "Person" = true := by decide
example : hasArraySuffix "uint256[]" = true ∧ stripArraySuffix "uint256[]" = "uint256" := by decide
example : hasArraySuffix "a" = true ∧ stripArraySuffix "a" = "" := by decide
example : hasArraySuffix "uint256" = false := by decide
example : natToDecStr 120 = "120" := by decide
example : parseDecStr "120" = some 120 := by decide
example : bytesToHex [25, 1, 255] = "1901ff" := by decide
example : parseHexBytes "1901ff" = some [25, 1, 255] := by decide
example : natToWord 4 258 = [0, 0, 1, 2] := by decide
example : mkSignerStructs [("A", [])] =
    .ok [("EIP712Domain", EIP712DomainType), ("A", [])] := rfl

/-- One step of the dependency walk over the fields of a struct (the for
loop of the source: results are concatenated and the met set is threaded
through from left to right). `rec` is the recursive call at lower fuel. -/
def getDepsFold (rec : List String → String → Option (List String × List String)) :
    List EIP712StructField → List String → Option (List String × List String)
  | [], met => some ([], met)
  | f :: fs, met =>
    match rec met f.type with
    | none => none
    | some (r1, met1) =>
      match getDepsFold rec fs met1 with
      | none => none
      | some (r2, met2) => some (r1 ++ r2, met2)

/-- One unfolding of the source getDependenciesOf: strip one array suffix,
stop on an already met or unregistered name, otherwise record the type in the
met set and walk its fields. -/
def getDepsStep (structs : Structs)
    (rec : List String → String → Option (List String × List String))
    (met : List String) (type : String) : Option (List String × List String) :=
  if hasArraySuffix type then rec met (stripArraySuffix type)
  else
    match lookupStruct structs type with
    | none => some ([], met)
    | some fields =>
      if met.contains type then some ([], met)
      else
        match getDepsFold rec fields (type :: met) with
        | none => none
        | some (r, met2) => some (type :: r, met2)

/-- Fuel-indexed dependency walk; one unit of fuel is consumed per recursive
call of the source function. -/
def getDepsGo (structs : Structs) : Nat → List String → String → Option (List String × List String)
  | 0 => fun _ _ => none
  | n + 1 => getDepsStep structs (getDepsGo structs n)

/-- Number of registered type names not yet in the met set. -/
def countNotMet (structs : Structs) (met : List String) : Nat :=
  ((structs.map Prod.fst).filter (fun k => decide (k ∉ met))).length

/-- Total length of all field type strings of the registry; together with the
count above it bounds the recursion depth of the dependency walk. -/
def sumFieldTypeLen (structs : Structs) : Nat :=
  (structs.map (fun p => (p.2.map (fun f => f.type.data.length)).sum)).sum

/-- A fuel bound sufficient for the dependency walk to complete. -/
def sufficientFuel (structs : Structs) (met : List String) (type : String) : Nat :=
  (sumFieldTypeLen structs + 1) * countNotMet structs met + type.data.length + 1

/-- Source getDependenciesOf: run the walk with a provably sufficient fuel and
return the dependency list. -/
def getDependenciesOf (structs : Structs) (type : String) (met : List String) : List String :=
  ((getDepsGo structs (sufficientFuel structs met type) met type).map Prod.fst).getD []

example : getDependenciesOf [("EIP712Domain", EIP712DomainType),
    ("Person", [⟨"name", "string"⟩, ⟨"wallet", "address"⟩]),
    ("Mail", [⟨"from", "Person"⟩, ⟨"to", "Person"⟩, ⟨"contents", "string"⟩])]
    "Mail" [] = ["Mail", "Person"] := by decide

example : getDependenciesOf [("EIP712Domain", EIP712DomainType),
    ("Node", [⟨"next", "Node[]"⟩, ⟨"val", "uint256"⟩])] "Node" [] = ["Node"] := by decide

/-- A successful lookup means the name is among the registered keys. -/
theorem lookupStruct_mem_keys (structs : Structs) (name : String) (s : EIP712Struct)
    (h : lookupStruct structs name = some s) : name ∈ structs.map Prod.fst := by
  induction structs with
  | nil => simp [lookupStruct] at h
  | cons p rest ih =>
    match p with
    | (k, v) =>
      by_cases hk : k = name
      · subst hk; simp
      · simp only [lookupStruct, if_neg hk] at h
        simpa using Or.inr (ih h)

/-- Invariant of the dependency walk: the returned met set is the reversed
result pushed on the incoming met set, the result has no duplicates, and every
returned name is fresh and registered. -/
def DepsSound (structs : Structs)
    (rec : List String → String → Option (List String × List String)) : Prop :=
  ∀ met t r m2, rec met t = some (r, m2) →
    m2 = r.reverse ++ met ∧ r.Nodup ∧ ∀ x ∈ r, x ∉ met ∧ (lookupStruct structs x).isSome

/-- The field fold preserves the dependency-walk invariant. -/
theorem getDepsFold_sound (structs : Structs)
    (rec : List String → String → Option (List String × List String))
    (H : DepsSound structs rec) :
    ∀ fs met r m2, getDepsFold rec fs met = some (r, m2) →
      m2 = r.reverse ++ met ∧ r.Nodup ∧ ∀ x ∈ r, x ∉ met ∧ (lookupStruct structs x).isSome := by
  intro fs
  induction fs with
  | nil =>
    intro met r m2 h
    simp only [getDepsFold, Option.some.injEq, Prod.mk.injEq] at h
    obtain ⟨hr, hm⟩ := h
    subst hr; subst hm
    exact ⟨by simp, List.nodup_nil, by simp⟩
  | cons f fs ih =>
    intro met r m2 h
    cases hrec : rec met f.type with
    | none =>
      simp only [getDepsFold, hrec] at h
      exact Option.noConfusion h
    | some p1 =>
      match p1 with
      | (r1, met1) =>
        cases hfold : getDepsFold rec fs met1 with
        | none =>
          simp only [getDepsFold, hrec, hfold] at h
          exact Option.noConfusion h
        | some p2 =>
          match p2 with
          | (r2, met2) =>
            simp only [getDepsFold, hrec, hfold, Option.some.injEq, Prod.mk.injEq] at h
            obtain ⟨hr, hm⟩ := h
            subst hr; subst hm
            obtain ⟨h1s, h1n, h1f⟩ := H met f.type r1 met1 hrec
            obtain ⟨h2s, h2n, h2f⟩ := ih met1 r2 met2 hfold
            refine ⟨?_, ?_, ?_⟩
            · rw [h2s, h1s, List.reverse_append, List.append_assoc]
            · rw [List.nodup_append]
              refine ⟨h1n, h2n, ?_⟩
              intro x hx1 hx2
              have hnot := (h2f x hx2).1
              rw [h1s] at hnot
              exact hnot (List.mem_append.mpr (Or.inl (List.mem_reverse.mpr hx1)))
            · intro x hx
              rcases List.mem_append.mp hx with hx1 | hx2
              · exact h1f x hx1
              · obtain ⟨hnot, hreg⟩ := h2f x hx2
                rw [h1s] at hnot
                exact ⟨fun hmet => hnot (List.mem_append.mpr (Or.inr hmet)), hreg⟩

/-- The fuel-indexed dependency walk satisfies the invariant at every fuel. -/
theorem getDepsGo_sound (structs : Structs) :
    ∀ fuel, DepsSound structs (getDepsGo structs fuel) := by
  intro fuel
  induction fuel with
  | zero => intro met t r m2 h; cases h
  | succ n ih =>
    intro met t r m2 h
    by_cases harr : hasArraySuffix t = true
    · simp only [getDepsGo, getDepsStep, if_pos harr] at h
      exact ih met (stripArraySuffix t) r m2 h
    · cases hlook : lookupStruct structs t with
      | none =>
        simp only [getDepsGo, getDepsStep, if_neg harr, hlook, Option.some.injEq,
          Prod.mk.injEq] at h
        obtain ⟨hr, hm⟩ := h
        subst hr; subst hm
        exact ⟨by simp, List.nodup_nil, by simp⟩
      | some fields =>
        by_cases hmet : met.contains t = true
        · simp only [getDepsGo, getDepsStep, if_neg harr, hlook, if_pos hmet,
            Option.some.injEq, Prod.mk.injEq] at h
          obtain ⟨hr, hm⟩ := h
          subst hr; subst hm
          exact ⟨by simp, List.nodup_nil, by simp⟩
        · cases hfold : getDepsFold (getDepsGo structs n) fields (t :: met) with
          | none =>
            simp only [getDepsGo, getDepsStep, if_neg harr, hlook, if_neg hmet, hfold] at h
            exact Option.noConfusion h
          | some p =>
            match p with
            | (rf, mf) =>
              simp only [getDepsGo, getDepsStep, if_neg harr, hlook, if_neg hmet, hfold,
                Option.some.injEq, Prod.mk.injEq] at h
              obtain ⟨hr, hm⟩ := h
              subst hr; subst hm
              obtain ⟨hs, hn, hf⟩ := getDepsFold_sound structs _ ih fields (t :: met) rf mf hfold
              have htnotmet : t ∉ met := by simpa using hmet
              refine ⟨?_, ?_, ?_⟩
              · rw [hs, List.reverse_cons, List.append_assoc]; simp
              · exact List.nodup_cons.mpr
                  ⟨fun hx => ((hf t hx).1 (List.mem_cons_self t met)), hn⟩
              · intro x hx
                rcases List.mem_cons.mp hx with hx1 | hx2
                · subst hx1; exact ⟨htnotmet, by rw [hlook]; rfl⟩
                · obtain ⟨hnot, hreg⟩ := hf x hx2
                  exact ⟨fun hmem => hnot (List.mem_cons_of_mem t hmem), hreg⟩

/-- Growing the met set cannot increase the number of unmet registered names. -/
theorem countNotMet_mono (structs : Structs) (met met2 : List String)
    (h : ∀ x ∈ met, x ∈ met2) : countNotMet structs met2 ≤ countNotMet structs met := by
  apply List.Sublist.length_le
  apply List.monotone_filter_right
  intro a ha
  simp only [decide_eq_true_eq] at ha ⊢
  exact fun hm => ha (h a hm)

/-- Meeting a registered, not yet met name strictly decreases the count. -/
theorem filter_notMem_cons_lt (ks met : List String) (t : String)
    (hmem : t ∈ ks) (hnot : t ∉ met) :
    (ks.filter (fun k => decide (k ∉ (t :: met)))).length <
      (ks.filter (fun k => decide (k ∉ met))).length := by
  induction ks with
  | nil => cases hmem
  | cons k rest ih =>
    by_cases hk : k = t
    · subst hk
      have h1 : decide (k ∉ (k :: met)) = false := by simp
      have h2 : decide (k ∉ met) = true := by simpa using hnot
      simp only [List.filter_cons, h1, h2, if_false, if_true]
      have hmono : (rest.filter (fun x => decide (x ∉ (k :: met)))).length ≤
          (rest.filter (fun x => decide (x ∉ met))).length := by
        apply List.Sublist.length_le
        apply List.monotone_filter_right
        intro a ha
        simp only [decide_eq_true_eq, List.mem_cons, not_or] at ha ⊢
        exact ha.2
      simpa using Nat.lt_succ_of_le hmono
    · have hrest : t ∈ rest := by
        rcases List.mem_cons.mp hmem with h | h
        · exact absurd h.symm hk
        · exact h
      have hsame : decide (k ∉ (t :: met)) = decide (k ∉ met) := by
        apply decide_eq_decide.mpr
        simp [List.mem_cons, hk]
      simp only [List.filter_cons, hsame]
      rcases hval : decide (k ∉ met) with _ | _
      · simpa using ih hrest
      · simpa using Nat.succ_lt_succ (ih hrest)

/-- Count form of the strict decrease lemma. -/
theorem countNotMet_cons_lt (structs : Structs) (met : List String) (t : String)
    (hmem : t ∈ structs.map Prod.fst) (hnot : t ∉ met) :
    countNotMet structs (t :: met) < countNotMet structs met :=
  filter_notMem_cons_lt (structs.map Prod.fst) met t hmem hnot

/-- Every field type string of a registered struct is bounded by the total
field type length of the registry. -/
theorem fieldTypeLen_le (structs : Structs) (name : String) (fields : EIP712Struct)
    (h : lookupStruct structs name = some fields) :
    ∀ f ∈ fields, f.type.data.length ≤ sumFieldTypeLen structs := by
  induction structs with
  | nil => cases h
  | cons p rest ih =>
    match p with
    | (k, v) =>
      intro f hf
      by_cases hk : k = name
      · simp only [lookupStruct, if_pos hk, Option.some.injEq] at h
        have hfv : f ∈ v := h ▸ hf
        have h1 : f.type.data.length ≤ (v.map (fun g => g.type.data.length)).sum :=
          List.single_le_sum (by intro x hx; exact Nat.zero_le x) _
            (List.mem_map.mpr ⟨f, hfv, rfl⟩)
        calc f.type.data.length ≤ (v.map (fun g => g.type.data.length)).sum := h1
          _ ≤ sumFieldTypeLen ((k, v) :: rest) := by simp [sumFieldTypeLen]
      · simp only [lookupStruct, if_neg hk] at h
        calc f.type.data.length ≤ sumFieldTypeLen rest := ih h f hf
          _ ≤ sumFieldTypeLen ((k, v) :: rest) := by simp [sumFieldTypeLen]

/-- A string passing the array-suffix test is nonempty. -/
theorem hasArraySuffix_pos (t : String) (h : hasArraySuffix t = true) :
    1 ≤ t.data.length := by
  simp only [hasArraySuffix, Bool.or_eq_true, beq_iff_eq, Bool.and_eq_true,
    decide_eq_true_eq] at h
  rcases h with h | ⟨h, _⟩ <;> omega

/-- Length of the stripped array element type. -/
theorem stripArraySuffix_length (t : String) :
    (stripArraySuffix t).data.length = t.data.length - 2 := by
  simp [stripArraySuffix]

/-- The field fold completes whenever the recursive call completes within the
stated bound and the per-field type lengths are within the registry total. -/
theorem getDepsFold_sufficient (structs : Structs) (n : Nat)
    (rec : List String → String → Option (List String × List String))
    (Hsound : DepsSound structs rec)
    (Hsome : ∀ met t,
      (sumFieldTypeLen structs + 1) * countNotMet structs met + t.data.length + 1 ≤ n →
      (rec met t).isSome) :
    ∀ fs met, (∀ f ∈ fs, f.type.data.length ≤ sumFieldTypeLen structs) →
      (sumFieldTypeLen structs + 1) * countNotMet structs met + sumFieldTypeLen structs + 1 ≤ n →
      (getDepsFold rec fs met).isSome := by
  intro fs
  induction fs with
  | nil => intro met _ _; simp [getDepsFold]
  | cons f fs ih =>
    intro met hlen hbound
    have hfirst : (rec met f.type).isSome := by
      apply Hsome
      have := hlen f (List.mem_cons_self f fs)
      omega
    cases hrec : rec met f.type with
    | none => rw [hrec] at hfirst; cases hfirst
    | some p1 =>
      match p1 with
      | (r1, met1) =>
        have hmet1 : countNotMet structs met1 ≤ countNotMet structs met := by
          apply countNotMet_mono
          intro x hx
          have hshape := (Hsound met f.type r1 met1 hrec).1
          rw [hshape]
          exact List.mem_append.mpr (Or.inr hx)
        have hrest : (getDepsFold rec fs met1).isSome := by
          apply ih met1 (fun g hg => hlen g (List.mem_cons_of_mem f hg))
          have hmul : (sumFieldTypeLen structs + 1) * countNotMet structs met1 ≤
              (sumFieldTypeLen structs + 1) * countNotMet structs met :=
            Nat.mul_le_mul_left _ hmet1
          omega
        cases hfold : getDepsFold rec fs met1 with
        | none => rw [hfold] at hrest; cases hrest
        | some p2 =>
          match p2 with
          | (r2, met2) => simp [getDepsFold, hrec, hfold]

/-- Termination of the dependency walk: with the computable fuel bound the
walk never exhausts, for every registry (including self-referential and
mutually recursive struct schemas) and every type name. -/
theorem getDepsGo_sufficient (structs : Structs) :
    ∀ fuel met type, sufficientFuel structs met type ≤ fuel →
      (getDepsGo structs fuel met type).isSome := by
  intro fuel
  induction fuel with
  | zero =>
    intro met type h
    simp [sufficientFuel] at h
  | succ n ih =>
    intro met type hbound
    simp only [sufficientFuel] at hbound
    by_cases harr : hasArraySuffix type = true
    · have hlen := hasArraySuffix_pos type harr
      simp only [getDepsGo, getDepsStep, if_pos harr]
      apply ih
      simp only [sufficientFuel, stripArraySuffix_length]
      omega
    · cases hlook : lookupStruct structs type with
      | none => simp [getDepsGo, getDepsStep, if_neg harr, hlook]
      | some fields =>
        by_cases hmet : met.contains type = true
        · have hm2 : type ∈ met := by simpa using hmet
          simp [getDepsGo, getDepsStep, if_neg harr, hlook, hm2]
        · have hnotmem : type ∉ met := by simpa using hmet
          have hcnt : countNotMet structs (type :: met) < countNotMet structs met :=
            countNotMet_cons_lt structs met type
              (lookupStruct_mem_keys structs type fields hlook) hnotmem
          have hfold : (getDepsFold (getDepsGo structs n) fields (type :: met)).isSome := by
            apply getDepsFold_sufficient structs n _ (getDepsGo_sound structs n)
            · intro met2 t2 hb
              apply ih
              simpa [sufficientFuel] using hb
            · exact fieldTypeLen_le structs type fields hlook
            · have hmul : (sumFieldTypeLen structs + 1) * (countNotMet structs (type :: met) + 1) ≤
                  (sumFieldTypeLen structs + 1) * countNotMet structs met :=
                Nat.mul_le_mul_left _ hcnt
              have hexp : (sumFieldTypeLen structs + 1) * (countNotMet structs (type :: met) + 1) =
                  (sumFieldTypeLen structs + 1) * countNotMet structs (type :: met) +
                    (sumFieldTypeLen structs + 1) := Nat.mul_succ _ _
              omega
          cases hfoldeq : getDepsFold (getDepsGo structs n) fields (type :: met) with
          | none => rw [hfoldeq] at hfold; cases hfold
          | some p =>
            match p with
            | (rf, mf) =>
              simp [getDepsGo, getDepsStep, if_neg harr, hlook, hnotmem, hfoldeq]

/-- The field fold only depends on the recursive call function extensionally. -/
theorem getDepsFold_congr
    (rec1 rec2 : List String → String → Option (List String × List String))
    (H : ∀ met t, rec1 met t = rec2 met t) :
    ∀ fs met, getDepsFold rec1 fs met = getDepsFold rec2 fs met := by
  intro fs
  induction fs with
  | nil => intro met; rfl
  | cons f fs ih =>
    intro met
    simp only [getDepsFold, H]
    cases rec2 met f.type with
    | none => rfl
    | some p =>
      match p with
      | (r1, met1) => simp only [ih]

/-- The dependency walk depends on the registry only through lookups. -/
theorem getDepsGo_congr (s1 s2 : Structs)
    (h : ∀ k, lookupStruct s1 k = lookupStruct s2 k) :
    ∀ fuel met t, getDepsGo s1 fuel met t = getDepsGo s2 fuel met t := by
  intro fuel
  induction fuel with
  | zero => intro met t; rfl
  | succ n ih =>
    intro met t
    simp only [getDepsGo, getDepsStep, h]
    by_cases harr : hasArraySuffix t = true
    · simp only [if_pos harr, ih]
    · simp only [if_neg harr]
      cases lookupStruct s2 t with
      | none => rfl
      | some fields =>
        simp only [getDepsFold_congr (getDepsGo s1 n) (getDepsGo s2 n) ih fields]

/-- The field fold preserves successful results along a pointwise refinement
of the recursive call. -/
theorem getDepsFold_fuelmono
    (rec1 rec2 : List String → String → Option (List String × List String))
    (H : ∀ met t r, rec1 met t = some r → rec2 met t = some r) :
    ∀ fs met r, getDepsFold rec1 fs met = some r → getDepsFold rec2 fs met = some r := by
  intro fs
  induction fs with
  | nil => intro met r h; exact h
  | cons f fs ih =>
    intro met r h
    cases hrec : rec1 met f.type with
    | none => simp only [getDepsFold, hrec] at h; exact Option.noConfusion h
    | some p1 =>
      match p1 with
      | (r1, met1) =>
        cases hfold : getDepsFold rec1 fs met1 with
        | none =>
          simp only [getDepsFold, hrec, hfold] at h
          exact Option.noConfusion h
        | some p2 =>
          simp only [getDepsFold, hrec, hfold] at h
          simp only [getDepsFold, H met f.type _ hrec, ih met1 p2 hfold]
          exact h

/-- More fuel preserves every successful result of the dependency walk. -/
theorem getDepsGo_fuelmono (structs : Structs) :
    ∀ n m, n ≤ m → ∀ met t r,
      getDepsGo structs n met t = some r → getDepsGo structs m met t = some r := by
  intro n
  induction n with
  | zero => intro m _ met t r h; exact Option.noConfusion h
  | succ n ih =>
    intro m hm met t r h
    match m with
    | 0 => omega
    | m0 + 1 =>
      have hnm : n ≤ m0 := by omega
      by_cases harr : hasArraySuffix t = true
      · simp only [getDepsGo, getDepsStep, if_pos harr] at h ⊢
        exact ih m0 hnm met (stripArraySuffix t) r h
      · simp only [getDepsGo, getDepsStep, if_neg harr] at h ⊢
        cases hlook : lookupStruct structs t with
        | none => rw [hlook] at h; exact h
        | some fields =>
          rw [hlook] at h
          dsimp only at h ⊢
          by_cases hmet : met.contains t = true
          · rw [if_pos hmet] at h ⊢; exact h
          · rw [if_neg hmet] at h ⊢
            cases hfold : getDepsFold (getDepsGo structs n) fields (t :: met) with
            | none => rw [hfold] at h; exact Option.noConfusion h
            | some p =>
              rw [hfold] at h
              rw [getDepsFold_fuelmono (getDepsGo structs n) (getDepsGo structs m0)
                (ih m0 hnm) fields (t :: met) p hfold]
              exact h

/-- Any sufficient fuel computes the dependency list returned by
getDependenciesOf. -/
theorem getDependenciesOf_spec (structs : Structs) (type : String) (met : List String) :
    ∀ fuel, sufficientFuel structs met type ≤ fuel →
      ∃ m2, getDepsGo structs fuel met type = some (getDependenciesOf structs type met, m2) := by
  intro fuel hfuel
  have hsome := getDepsGo_sufficient structs (sufficientFuel structs met type) met type
    (Nat.le_refl _)
  cases hgo : getDepsGo structs (sufficientFuel structs met type) met type with
  | none => rw [hgo] at hsome; cases hsome
  | some p =>
    match p with
    | (r, m2) =>
      have hmono := getDepsGo_fuelmono structs _ fuel hfuel met type (r, m2) hgo
      have hdef : getDependenciesOf structs type met = r := by
        simp [getDependenciesOf, hgo]
      exact ⟨m2, by rw [hdef]; exact hmono⟩

/-- One type block of the canonical type signature (the body of the loop in
the source encodeType): the type name, then the fields in declared order as
type space name, comma separated, in parentheses. -/
def encodeTypeBlock (t : String) (fields : EIP712Struct) : String :=
  t ++ "(" ++ String.intercalate "," (fields.map (fun f => f.type ++ " " ++ f.name)) ++ ")"

/-- Source encodeType: the dependency list minus the type itself is sorted,
the type itself is put first, and the blocks are appended with no separator.
The option models the JS TypeError raised on an unregistered type. -/
def encodeTypeSignature (structs : Structs) (type : String) : Option String :=
  let deps := (getDependenciesOf structs type []).filter (fun d => d != type)
  let sorted := List.insertionSort (fun a b => strLe a b = true) deps
  (type :: sorted).foldl
    (fun acc t => acc.bind (fun s => (lookupStruct structs t).map
      (fun fields => s ++ encodeTypeBlock t fields))) (some "")

/-- Source hashType: keccak-256 of the UTF-8 bytes of the type signature. -/
def hashType (keccak : Bytes → Bytes) (structs : Structs) (type : String) : Option Bytes :=
  (encodeTypeSignature structs type).map (fun s => keccak (strToBytes s))

example : encodeTypeSignature [("EIP712Domain", EIP712DomainType),
    ("Person", [⟨"name", "string"⟩, ⟨"wallet", "address"⟩]),
    ("Mail", [⟨"from", "Person"⟩, ⟨"to", "Person"⟩, ⟨"contents", "string"⟩])]
    "Mail" = some "Mail(Person from,Person to,string contents)Person(string name,address wallet)" := by
  decide

/-- ABI word of one (elementary type, value) pair, modelling the fragment of
the external ABI tuple encoder this library relies on: after field dispatch
every pair the library hands over denotes one static 32-byte word. A numeric
uint256 value is accepted as a native number, a big number, or a decimal
string, all denoting the same word. -/
def abiWord : String × Value → Option Bytes
  | ("bytes32", .vBytes b) => if b.length = 32 then some b else none
  | ("uint256", .vNum n) => if n < 2 ^ 256 then some (natToWord 32 n) else none
  | ("uint256", .vBN n) => if n < 2 ^ 256 then some (natToWord 32 n) else none
  | ("uint256", .vStr s) =>
    match parseDecStr s with
    | some n => if n < 2 ^ 256 then some (natToWord 32 n) else none
    | none => none
  | ("address", .vStr s) =>
    match s.data with
    | '0' :: 'x' :: rest =>
      match parseHexChars rest with
      | some b => if b.length = 20 then some (List.replicate 12 0 ++ b) else none
      | none => none
    | _ => none
  | ("bool", .vBool b) => some (List.replicate 31 0 ++ [if b then 1 else 0])
  | _ => none

/-- The external ABI tuple encoder on a pair list: the concatenation of the
words, failing on any pair outside the modelled fragment. -/
def abiEncode : List (String × Value) → Except EIP712Error Bytes
  | [] => .ok []
  | p :: ps =>
    match abiWord p with
    | none => .error .valueError
    | some w =>
      match abiEncode ps with
      | .ok rest => .ok (w ++ rest)
      | .error e => .error e

/-- Type of the recursive field encoder (source encodeDataTypeField). -/
abbrev FieldEnc := String → Value → Except EIP712Error (String × Value)

/-- Type of the recursive struct encoder (source encodeData). -/
abbrev DataEnc := String → Value → Except EIP712Error Bytes

/-- The element map of the array branch (JS `value.map(...)`), threading the
first error out. -/
def encodeArrayElems (rec : FieldEnc) (type : String) :
    List Value → Except EIP712Error (List (String × Value))
  | [] => .ok []
  | v :: vs =>
    match rec type v with
    | .error e => .error e
    | .ok p =>
      match encodeArrayElems rec type vs with
      | .error e => .error e
      | .ok ps => .ok (p :: ps)

/-- The uint256 normalization of the source (JS: object values are replaced
by their toString). A big number becomes its decimal string; null and other
objects are errors (null throws immediately in the source, array and record
objects produce garbage strings the ABI coder then rejects; both are
collapsed to valueError here). -/
def uint256Normalize : Value → Except EIP712Error Value
  | .vBN n => .ok (Value.vStr (natToDecStr n))
  | .vNull => .error EIP712Error.valueError
  | .vObj _ => .error EIP712Error.valueError
  | .vArr _ => .error EIP712Error.valueError
  | v => .ok v

/-- One unfolding of the source encodeDataTypeField, with the recursive calls
(the field encoder for array elements, the struct encoder for struct values)
passed explicitly. Branch order follows the source: struct, bytes, string,
uint256 normalization, array, pass-through. -/
def encodeDataTypeFieldStep (structs : Structs) (keccak : Bytes → Bytes)
    (recField : FieldEnc) (recData : DataEnc) (type : String) (value : Value) :
    Except EIP712Error (String × Value) :=
  if (lookupStruct structs type).isSome then
    match value with
    | .vNull => .ok ("bytes32", B32Z)
    | _ =>
      match recData type value with
      | .ok enc => .ok ("bytes32", Value.vBytes (keccak enc))
      | .error e => .error e
  else if type = "bytes" then
    match value with
    | .vBytes b => .ok ("bytes32", Value.vBytes (keccak b))
    | _ => .error .valueError
  else if type = "string" then
    match value with
    | .vStr s => .ok ("bytes32", Value.vBytes (keccak (strToBytes s)))
    | _ => .error .valueError
  else
    match (if type = "uint256" then uint256Normalize value else .ok value) with
    | .error e => .error e
    | .ok value2 =>
      if hasArraySuffix type then
        match value2 with
        | .vArr elems =>
          match encodeArrayElems recField (stripArraySuffix type) elems with
          | .ok pairs =>
            match abiEncode pairs with
            | .ok enc => .ok ("bytes32", Value.vBytes (keccak enc))
            | .error e => .error e
          | .error e => .error e
        | _ => .error .valueError
      else .ok (type, value2)

/-- The field loop of the source encodeData: a strictly unset field raises
missing field for the type being encoded; otherwise each field value is
dispatched and the (type, word) pairs are collected in schema order. -/
def encodeFieldsLoop (recField : FieldEnc) (name : String)
    (record : List (String × Value)) : List EIP712StructField →
    Except EIP712Error (List (String × Value))
  | [] => .ok []
  | f :: fs =>
    match lookupField record f.name with
    | none => .error (.missingField name f.name)
    | some v =>
      match recField f.type v with
      | .error e => .error e
      | .ok p =>
        match encodeFieldsLoop recField name record fs with
        | .error e => .error e
        | .ok ps => .ok (p :: ps)

/-- One unfolding of the source encodeData: the pair list starts with
(bytes32, hashType of the type) and continues with the encoded fields, and
the result is the ABI encoding of that list. An unregistered name or a
non-record payload is the JS TypeError. -/
def encodeDataStep (structs : Structs) (keccak : Bytes → Bytes)
    (recField : FieldEnc) (name : String) (payload : Value) :
    Except EIP712Error Bytes :=
  match lookupStruct structs name with
  | none => .error .valueError
  | some fields =>
    match hashType keccak structs name with
    | none => .error .valueError
    | some ht =>
      match payload with
      | .vObj record =>
        match encodeFieldsLoop recField name record fields with
        | .error e => .error e
        | .ok pairs => abiEncode (("bytes32", Value.vBytes ht) :: pairs)
      | _ => .error .valueError

/-- The mutually recursive pair (encodeDataTypeField, encodeData) of the
source, stratified by fuel: each level calls the previous level. -/
def encodePair (structs : Structs) (keccak : Bytes → Bytes) : Nat → FieldEnc × DataEnc
  | 0 => (fun _ _ => .error .fuelExhausted, fun _ _ => .error .fuelExhausted)
  | n + 1 =>
    let p := encodePair structs keccak n
    (encodeDataTypeFieldStep structs keccak p.1 p.2,
     encodeDataStep structs keccak p.1)

/-- Source encodeDataTypeField at the given fuel. -/
def encodeDataTypeField (structs : Structs) (keccak : Bytes → Bytes) (fuel : Nat) : FieldEnc :=
  (encodePair structs keccak fuel).1

/-- Source encodeData at the given fuel. -/
def encodeData (structs : Structs) (keccak : Bytes → Bytes) (fuel : Nat) : DataEnc :=
  (encodePair structs keccak fuel).2

/-- Source hashData: keccak-256 of the result of encodeData. -/
def hashData (structs : Structs) (keccak : Bytes → Bytes) (fuel : Nat)
    (type : String) (data : Value) : Except EIP712Error Bytes :=
  match encodeData structs keccak fuel type data with
  | .ok enc => .ok (keccak enc)
  | .error e => .error e

/-- The complete payload required for signing (source interface
EIP712Payload). The `keys` component models the runtime key set of the JS
payload object (Object.keys, in insertion order); the typed components model
the property accesses the source performs. -/
structure EIP712Payload where
  keys : List String
  domain : Value
  types : List (String × EIP712Struct)
  primaryType : String
  message : Value

/-- A produced signature record (source interface EIP712Signature). -/
structure EIP712Signature where
  hex : String
  v : Nat
  s : String
  r : String
deriving DecidableEq, Repr

/-- The required top level payload fields (source constant REQUIRED_FIELDS). -/
def REQUIRED_FIELDS : List String := ["domain", "types", "message", "primaryType"]

/-- Source verifyMainPayloadField: the payload must have exactly as many keys
as required and contain every required key. Both throws of the source are the
payload shape error of the taxonomy. -/
def verifyMainPayloadField (payload : EIP712Payload) : Except EIP712Error Unit :=
  if payload.keys.length ≠ REQUIRED_FIELDS.length then .error .invalidPayloadShape
  else if REQUIRED_FIELDS.all (fun req => payload.keys.contains req) then .ok ()
  else .error .invalidPayloadShape

/-- The key list of the required-types table built by the source
verifyTypes: EIP712Domain is inserted first, then each dependency of the
primary type (object key insertion keeps the first occurrence). -/
def requiredTypeKeys (structs : Structs) (primaryType : String) : List String :=
  "EIP712Domain" :: (getDependenciesOf structs primaryType []).filter
    (fun d => d != "EIP712Domain")

/-- The per-type field check of the source verifyTypes: every claimed field
must exist by name in the registered schema with an identical type string. -/
def verifyFieldsLoop (typeName : String) (registered : EIP712Struct) :
    EIP712Struct → Except EIP712Error Unit
  | [] => .ok ()
  | f :: fs =>
    match registered.find? (fun g => g.name == f.name) with
    | none => .error (.fieldMismatch typeName f.name)
    | some rf =>
      if f.type ≠ rf.type then .error (.fieldMismatch typeName f.name)
      else verifyFieldsLoop typeName registered fs

/-- The key loop of the source verifyTypes. -/
def verifyTypesLoop (structs : Structs) :
    List (String × EIP712Struct) → Except EIP712Error Unit
  | [] => .ok ()
  | (t, claimed) :: rest =>
    match lookupStruct structs t with
    | none => .error (.unknownType t)
    | some registered =>
      match verifyFieldsLoop t registered claimed with
      | .error e => .error e
      | .ok _ => verifyTypesLoop structs rest

/-- Source verifyTypes: the declared type-name count must equal the required
count, then each declared type is checked. -/
def verifyTypes (structs : Structs) (payload : EIP712Payload) : Except EIP712Error Unit :=
  if payload.types.length ≠ (requiredTypeKeys structs payload.primaryType).length then
    .error .typeCountMismatch
  else verifyTypesLoop structs payload.types

/-- The field loop of the source verifyDomain. -/
def verifyDomainLoop (record : List (String × Value)) :
    EIP712Struct → Except EIP712Error Unit
  | [] => .ok ()
  | f :: fs =>
    if (lookupField record f.name).isNone then .error (.missingDomainField f.name)
    else verifyDomainLoop record fs

/-- Source verifyDomain: every field of the registered EIP712Domain schema
must be present (not unset) in the payload domain. -/
def verifyDomain (structs : Structs) (payload : EIP712Payload) : Except EIP712Error Unit :=
  match lookupStruct structs "EIP712Domain" with
  | none => .error .valueError
  | some fields =>
    match payload.domain with
    | .vObj record => verifyDomainLoop record fields
    | _ => .error .valueError

/-- Source verifyPrimaryType: the primary type must name a registered type. -/
def verifyPrimaryType (structs : Structs) (payload : EIP712Payload) : Except EIP712Error Unit :=
  if (lookupStruct structs payload.primaryType).isSome then .ok ()
  else .error (.unknownPrimaryType payload.primaryType)

/-- Source encode, at byte level: the shape check always runs; the remaining
validators run only when verification is requested; the pre-image is the
2-byte magic prefix, the domain struct hash, and (unless the primary type is
EIP712Domain itself) the message struct hash. -/
def encodeBytes (structs : Structs) (keccak : Bytes → Bytes) (fuel : Nat)
    (payload : EIP712Payload) (verify : Bool) : Except EIP712Error Bytes := do
  verifyMainPayloadField payload
  if verify then
    verifyTypes structs payload
    verifyDomain structs payload
    verifyPrimaryType structs payload
  let dh ← hashData structs keccak fuel "EIP712Domain" payload.domain
  if payload.primaryType ≠ "EIP712Domain" then
    let mh ← hashData structs keccak fuel payload.primaryType payload.message
    return [25, 1] ++ dh ++ mh
  else
    return [25, 1] ++ dh

/-- Source encode: the pre-image bytes rendered as a 0x hex string. -/
def encode (structs : Structs) (keccak : Bytes → Bytes) (fuel : Nat)
    (payload : EIP712Payload) (verify : Bool) : Except EIP712Error String :=
  match encodeBytes structs keccak fuel payload verify with
  | .ok b => .ok ("0x" ++ bytesToHex b)
  | .error e => .error e

/-- Source verifyPayload: all validators, then a full encode pass whose
result is discarded. -/
def verifyPayload (structs : Structs) (keccak : Bytes → Bytes) (fuel : Nat)
    (payload : EIP712Payload) : Except EIP712Error Unit := do
  verifyMainPayloadField payload
  verifyTypes structs payload
  verifyDomain structs payload
  verifyPrimaryType structs payload
  let _ ← encode structs keccak fuel payload false
  return ()

/-- Raw signature components returned by the external elliptic-curve signing
capability (ethers SigningKey.signDigest): r and s as 0x hex strings, v as a
number. -/
structure RawSigComponents where
  r : String
  s : String
  v : Nat

/-- The private key argument of sign: a raw private key string or an external
signer capability receiving the hex encoded (unhashed) pre-image. -/
inductive SignKey where
  | raw (privateKey : String)
  | ext (signer : String → EIP712Signature)

/-- Source fromSigned: parse the hex value (after the 0x marker) as bytes and
interpret them as a 256-bit twos-complement signed integer. -/
def fromSigned (num : String) : Option Int :=
  match parseHexBytes (String.mk (num.data.drop 2)) with
  | some bs =>
    let n := beBytesToNat bs
    some (if n < 2 ^ 255 then (n : Int) else (n : Int) - 2 ^ 256)
  | none => none

/-- Source toUnsigned: 256-bit twos-complement re-encoding of the signed
value, as a minimal byte array (bn.js toTwos followed by toArray). -/
def toUnsigned (z : Int) : Bytes := natMinBytes (z % (2 ^ 256 : Int)).toNat

/-- Source padWithZeroes, in closed form: prepend zero characters until the
string is at least the requested length. -/
def padWithZeroes (toPad : String) (length : Nat) : String :=
  String.mk (List.replicate (length - toPad.data.length) '0' ++ toPad.data)

/-- Unpadded lowercase hex rendering of a number (JS Number.toString(16)). -/
def natToHexStr (n : Nat) : String := String.mk (Nat.toDigits 16 n)

/-- Source sign. With a raw private key, the pre-image is hashed and the
digest is given to the elliptic-curve capability `ecSign`; r and s are pushed
through the signed/unsigned round trip and zero-padded to 64 hex characters,
v is rendered unpadded. With an external signer capability, the unhashed hex
pre-image is handed to the capability and its record is returned unchanged. -/
def sign (structs : Structs) (keccak : Bytes → Bytes)
    (ecSign : String → Bytes → RawSigComponents) (fuel : Nat)
    (privateKey : SignKey) (payload : EIP712Payload) (verify : Bool) :
    Except EIP712Error EIP712Signature := do
  let encoded_payload ← encode structs keccak fuel payload verify
  match privateKey with
  | .raw sk =>
    match parseHexBytes (String.mk (encoded_payload.data.drop 2)) with
    | none => .error .valueError
    | some bytes =>
      let hashed_payload := keccak bytes
      let signature := ecSign sk hashed_payload
      match fromSigned signature.r, fromSigned signature.s with
      | some rSig, some sSig =>
        let rStr := padWithZeroes (bytesToHex (toUnsigned rSig)) 64
        let sStr := padWithZeroes (bytesToHex (toUnsigned sSig)) 64
        let vStr := natToHexStr signature.v
        .ok { hex := "0x" ++ rStr ++ sStr ++ vStr, v := signature.v, r := rStr, s := sStr }
      | _, _ => .error .valueError
  | .ext f => .ok (f encoded_payload)

/-- Source verify: recompute the digest exactly as the raw-key signing path
does and hand it to the external recovery capability. -/
def verifySignature (structs : Structs) (keccak : Bytes → Bytes)
    (ecRecover : Bytes → String → String) (fuel : Nat)
    (payload : EIP712Payload) (signature : String) (verify : Bool) :
    Except EIP712Error String := do
  let encoded_payload ← encode structs keccak fuel payload verify
  match parseHexBytes (String.mk (encoded_payload.data.drop 2)) with
  | none => .error .valueError
  | some bytes =>
    let hashed_payload := keccak bytes
    .ok (ecRecover hashed_payload signature)

instance instDecEqExcept {e b : Type} [DecidableEq e] [DecidableEq b] :
    DecidableEq (Except e b)
  | .ok x, .ok y =>
    if h : x = y then isTrue (by rw [h]) else isFalse (by intro hc; cases hc; exact h rfl)
  | .error x, .error y =>
    if h : x = y then isTrue (by rw [h]) else isFalse (by intro hc; cases hc; exact h rfl)
  | .ok _, .error _ => isFalse (by intro hc; cases hc)
  | .error _, .ok _ => isFalse (by intro hc; cases hc)

/-- A degenerate stand-in for the external hash capability, used to evaluate
the embedding on concrete inputs. -/
def keccakOnes : Bytes → Bytes := fun _ => List.replicate 32 1

/-- Registry of the readme example: Person and Mail. -/
def structsMail : Structs :=
  [("EIP712Domain", EIP712DomainType),
   ("Person", [⟨"name", "string"⟩, ⟨"wallet", "address"⟩]),
   ("Mail", [⟨"from", "Person"⟩, ⟨"to", "Person"⟩, ⟨"contents", "string"⟩])]

/-- A concrete domain record. -/
def domainSample : Value := Value.vObj
  [("name", Value.vStr "Ether Mail"), ("version", Value.vStr "1"),
   ("chainId", Value.vNum 1),
   ("verifyingContract", Value.vStr "0xCcCCccccCCCCcCCCCCCcCcCccCcCCCcCcccccccC")]

/-- A concrete Mail message record. -/
def messageMail : Value := Value.vObj
  [("from", Value.vObj [("name", Value.vStr "Cow"),
      ("wallet", Value.vStr "0xCD2a3d9F938E13CD947Ec05AbC7FE734Df8DD826")]),
   ("to", Value.vObj [("name", Value.vStr "Bob"),
      ("wallet", Value.vStr "0xbBbBBBBbbBBBbbbBbbBbbbbBBbBbbbbBbBbbBBbB")]),
   ("contents", Value.vStr "Hello, Bob!")]

/-- A complete well-formed payload for the Mail registry. -/
def payloadMail : EIP712Payload :=
  { keys := ["domain", "types", "message", "primaryType"],
    domain := domainSample,
    types := [("EIP712Domain", EIP712DomainType),
      ("Person", [⟨"name", "string"⟩, ⟨"wallet", "address"⟩]),
      ("Mail", [⟨"from", "Person"⟩, ⟨"to", "Person"⟩, ⟨"contents", "string"⟩])],
    primaryType := "Mail",
    message := messageMail }

/-- A self-referential registry: Node contains an array of Node. -/
def structsNode : Structs :=
  [("EIP712Domain", EIP712DomainType),
   ("Node", [⟨"next", "Node[]"⟩, ⟨"val", "uint256"⟩])]

/-- C9: resolveDependencies terminates for every type name and every
registry, including self-referential and mutually recursive struct schemas:
with the computable sufficient fuel the walk completes; array suffixes are
stripped one level at a time before resolving the element type; a name
already in the seen set is not re-descended and contributes nothing; a
non-struct (elementary) type contributes nothing and stops the recursion;
and the returned list contains each struct name at most once (and only fresh,
registered names). -/
theorem getDependenciesOf_terminates_and_nodup
    (structs : Structs) (met : List String) (type : String) :
    (getDepsGo structs (sufficientFuel structs met type) met type).isSome ∧
    (∀ fuel r m2, getDepsGo structs fuel met type = some (r, m2) →
      r.Nodup ∧ ∀ x ∈ r, x ∉ met ∧ (lookupStruct structs x).isSome) ∧
    (∀ fuel, hasArraySuffix type = true →
      getDepsGo structs (fuel + 1) met type =
        getDepsGo structs fuel met (stripArraySuffix type)) ∧
    (hasArraySuffix type = false → lookupStruct structs type = none →
      ∀ fuel, getDepsGo structs (fuel + 1) met type = some ([], met)) ∧
    (hasArraySuffix type = false → type ∈ met →
      ∀ fuel, getDepsGo structs (fuel + 1) met type = some ([], met)) := by
  refine ⟨?_, ?_, ?_, ?_, ?_⟩
  · exact getDepsGo_sufficient structs _ met type (Nat.le_refl _)
  · intro fuel r m2 h
    obtain ⟨_, hn, hf⟩ := getDepsGo_sound structs fuel met type r m2 h
    exact ⟨hn, hf⟩
  · intro fuel harr
    simp [getDepsGo, getDepsStep, if_pos harr]
  · intro harr hlook fuel
    simp [getDepsGo, getDepsStep, harr, hlook]
  · intro harr hmem fuel
    cases hlook : lookupStruct structs type with
    | none => simp [getDepsGo, getDepsStep, harr, hlook]
    | some fields => simp [getDepsGo, getDepsStep, harr, hlook, hmem]

/-- Witness for C9 on the self-referential Node registry. -/
theorem getDependenciesOf_terminates_and_nodup_witness :
    (getDepsGo structsNode (sufficientFuel structsNode [] "Node") [] "Node").isSome ∧
    (∀ fuel r m2, getDepsGo structsNode fuel [] "Node" = some (r, m2) →
      r.Nodup ∧ ∀ x ∈ r, x ∉ ([] : List String) ∧ (lookupStruct structsNode x).isSome) ∧
    (∀ fuel, hasArraySuffix "Node" = true →
      getDepsGo structsNode (fuel + 1) [] "Node" =
        getDepsGo structsNode fuel [] (stripArraySuffix "Node")) ∧
    (hasArraySuffix "Node" = false → lookupStruct structsNode "Node" = none →
      ∀ fuel, getDepsGo structsNode (fuel + 1) [] "Node" = some ([], [])) ∧
    (hasArraySuffix "Node" = false → "Node" ∈ ([] : List String) →
      ∀ fuel, getDepsGo structsNode (fuel + 1) [] "Node" = some ([], [])) :=
  getDependenciesOf_terminates_and_nodup structsNode [] "Node"

/-- The shape check of the source rejects exactly the key sets that are not a
permutation of the four required names (for duplicate-free key sets, as JS
object key sets are). -/
theorem verifyMainPayloadField_error (payload : EIP712Payload)
    (hne : ¬ payload.keys.Perm REQUIRED_FIELDS) :
    verifyMainPayloadField payload = .error .invalidPayloadShape := by
  by_cases hlen : payload.keys.length = REQUIRED_FIELDS.length
  · by_cases hall : REQUIRED_FIELDS.all (fun req => payload.keys.contains req) = true
    · exfalso
      apply hne
      have hsub : REQUIRED_FIELDS ⊆ payload.keys := by
        intro x hx
        have := List.all_eq_true.mp hall x hx
        simpa using this
      have hreqnd : REQUIRED_FIELDS.Nodup := by decide
      have hsp := List.subperm_of_subset hreqnd hsub
      exact (hsp.perm_of_length_le (Nat.le_of_eq hlen)).symm
    · unfold verifyMainPayloadField
      rw [if_neg (fun h => h hlen), if_neg hall]
  · unfold verifyMainPayloadField
    rw [if_pos hlen]

/-- C10: for every payload whose top level key set is not exactly the four
recognized keys, encode raises the payload shape error even when verify is
false, and hence sign and verify do so as well. -/
theorem encode_shape_check_unconditional
    (structs : Structs) (keccak : Bytes → Bytes)
    (ecSign : String → Bytes → RawSigComponents) (ecRecover : Bytes → String → String)
    (fuel : Nat) (payload : EIP712Payload) (vf : Bool) (key : SignKey) (sigHex : String)
    (hne : ¬ payload.keys.Perm REQUIRED_FIELDS) :
    encode structs keccak fuel payload vf = .error .invalidPayloadShape ∧
    sign structs keccak ecSign fuel key payload vf = .error .invalidPayloadShape ∧
    verifySignature structs keccak ecRecover fuel payload sigHex vf =
      .error .invalidPayloadShape := by
  have hshape := verifyMainPayloadField_error payload hne
  have henc : encodeBytes structs keccak fuel payload vf = .error .invalidPayloadShape := by
    simp [encodeBytes, hshape, Bind.bind, Except.bind]
  have henc2 : encode structs keccak fuel payload vf = .error .invalidPayloadShape := by
    simp [encode, henc]
  refine ⟨henc2, ?_, ?_⟩
  · simp [sign, henc2, Bind.bind, Except.bind]
  · simp [verifySignature, henc2, Bind.bind, Except.bind]

/-- Witness for C10: a payload missing the primaryType key. -/
theorem encode_shape_check_unconditional_witness :
    ¬ ({ payloadMail with keys := ["domain", "types", "message"] } : EIP712Payload).keys.Perm
        REQUIRED_FIELDS ∧
    encode structsMail keccakOnes 10
      { payloadMail with keys := ["domain", "types", "message"] } false =
      .error .invalidPayloadShape ∧
    sign structsMail keccakOnes (fun _ _ => ⟨"0x01", "0x02", 27⟩) 10 (.raw "0x01")
      { payloadMail with keys := ["domain", "types", "message"] } false =
      .error .invalidPayloadShape := by
  have hne : ¬ ({ payloadMail with keys := ["domain", "types", "message"] } :
      EIP712Payload).keys.Perm REQUIRED_FIELDS := by decide
  obtain ⟨h1, h2, _⟩ := encode_shape_check_unconditional structsMail keccakOnes
    (fun _ _ => ⟨"0x01", "0x02", 27⟩) (fun _ _ => "") 10
    { payloadMail with keys := ["domain", "types", "message"] } false (.raw "0x01") "" hne
  exact ⟨hne, h1, h2⟩

/-- Decimal digit characters parse back to their value. -/
theorem decCharVal_digitChar : ∀ d < 10, decCharVal (Nat.digitChar d) = some d := by decide

/-- The accumulating decimal parser splits over list append. -/
theorem parseDecChars_append (xs ys : List Char) (acc : Nat) :
    parseDecChars (xs ++ ys) acc =
      match parseDecChars xs acc with
      | some v => parseDecChars ys v
      | none => none := by
  induction xs generalizing acc with
  | nil => rfl
  | cons c cs ih =>
    simp only [List.cons_append, parseDecChars]
    cases decCharVal c with
    | none => rfl
    | some d => exact ih (acc * 10 + d)

/-- Parsing the reversed little-endian decimal digits of n, with enough fuel,
recovers n on top of the shifted accumulator. -/
theorem parseDecChars_decCharsLE (f : Nat) :
    ∀ n acc, n < 10 ^ f →
      parseDecChars (decCharsLE f n).reverse acc =
        some (acc * 10 ^ (decCharsLE f n).length + n) := by
  induction f with
  | zero =>
    intro n acc hn
    have hn0 : n = 0 := by simpa using hn
    subst hn0
    simp [decCharsLE, parseDecChars]
  | succ f ih =>
    intro n acc hn
    by_cases h0 : n = 0
    · subst h0
      simp [decCharsLE, parseDecChars]
    · have hdiv : n / 10 < 10 ^ f := by
        apply Nat.div_lt_of_lt_mul
        calc n < 10 ^ (f + 1) := hn
          _ = 10 ^ f * 10 := by ring
          _ ≤ 10 * 10 ^ f := by ring_nf; omega
      simp only [decCharsLE, if_neg h0, List.reverse_cons]
      rw [parseDecChars_append]
      rw [ih (n / 10) acc hdiv]
      have hmod : n % 10 < 10 := Nat.mod_lt n (by omega)
      simp only [parseDecChars, decCharVal_digitChar (n % 10) hmod]
      have harith : (acc * 10 ^ (decCharsLE f (n / 10)).length + n / 10) * 10 + n % 10 =
          acc * 10 ^ ((decCharsLE f (n / 10)).length + 1) + n := by
        have hdm : n / 10 * 10 + n % 10 = n := by
          have := Nat.div_add_mod n 10
          omega
        rw [pow_succ]
        ring_nf
        omega
      rw [harith]
      simp [List.length_reverse]

/-- Round trip: the canonical decimal rendering of a natural number parses
back to the number. -/
theorem parseDecStr_natToDecStr (n : Nat) : parseDecStr (natToDecStr n) = some n := by
  by_cases h0 : n = 0
  · subst h0; decide
  · have h1 : 1 ≤ n := by omega
    have hlt : n < 10 ^ n := Nat.lt_pow_self (by omega) n
    have hparse := parseDecChars_decCharsLE n n 0 hlt
    have hne : decCharsLE n n ≠ [] := by
      match n, h1 with
      | m + 1, _ => simp [decCharsLE, h0]
    have hdata : (natToDecStr n).data = (decCharsLE n n).reverse := by
      simp [natToDecStr, if_neg h0]
    simp only [parseDecStr, hdata]
    rw [if_neg (by simp [hne])]
    rw [hparse]
    simp

/-- C4: for every registered struct type, a null value encodes to the fixed
all-zero 32-byte word (not a hash of anything), a non-null value encodes to
the struct hash, and as long as the hash capability never produces the zero
word a present non-null record never encodes to that word. -/
theorem encodeDataTypeField_struct_null_vs_hash
    (structs : Structs) (keccak : Bytes → Bytes) (fuel : Nat)
    (type : String) (fields : EIP712Struct) (v : Value) (enc : Bytes)
    (hreg : lookupStruct structs type = some fields)
    (hnz : ∀ b, keccak b ≠ List.replicate 32 0) :
    encodeDataTypeField structs keccak (fuel + 1) type .vNull = .ok ("bytes32", B32Z) ∧
    (v ≠ .vNull → encodeData structs keccak fuel type v = .ok enc →
      encodeDataTypeField structs keccak (fuel + 1) type v =
        .ok ("bytes32", Value.vBytes (keccak enc)) ∧
      Value.vBytes (keccak enc) ≠ B32Z) := by
  have hsome : (lookupStruct structs type).isSome = true := by rw [hreg]; rfl
  constructor
  · simp [encodeDataTypeField, encodePair, encodeDataTypeFieldStep, hsome]
  · intro hnull hdata
    constructor
    · cases v with
      | vNull => exact absurd rfl hnull
      | vStr s =>
        simp [encodeDataTypeField, encodePair, encodeDataTypeFieldStep, hsome, encodeData] at hdata ⊢
        rw [hdata]
      | vNum n =>
        simp [encodeDataTypeField, encodePair, encodeDataTypeFieldStep, hsome, encodeData] at hdata ⊢
        rw [hdata]
      | vBN n =>
        simp [encodeDataTypeField, encodePair, encodeDataTypeFieldStep, hsome, encodeData] at hdata ⊢
        rw [hdata]
      | vBool b =>
        simp [encodeDataTypeField, encodePair, encodeDataTypeFieldStep, hsome, encodeData] at hdata ⊢
        rw [hdata]
      | vBytes b =>
        simp [encodeDataTypeField, encodePair, encodeDataTypeFieldStep, hsome, encodeData] at hdata ⊢
        rw [hdata]
      | vArr elems =>
        simp [encodeDataTypeField, encodePair, encodeDataTypeFieldStep, hsome, encodeData] at hdata ⊢
        rw [hdata]
      | vObj flds =>
        simp [encodeDataTypeField, encodePair, encodeDataTypeFieldStep, hsome, encodeData] at hdata ⊢
        rw [hdata]
    · intro hc
      have hinj : keccak enc = List.replicate 32 0 := by
        have := congrArg (fun w => match w with | Value.vBytes b => b | _ => []) hc
        simpa [B32Z] using this
      exact hnz enc hinj

/-- A concrete Person record. -/
def personSampleV : Value := Value.vObj
  [("name", Value.vStr "Cow"),
   ("wallet", Value.vStr "0xCD2a3d9F938E13CD947Ec05AbC7FE734Df8DD826")]

/-- The encoding of the concrete Person record under the degenerate hash. -/
def personEnc : Bytes :=
  ((encodeData structsMail keccakOnes 10 "Person" personSampleV).toOption).getD []

/-- Witness for C4 on the concrete Person record. -/
theorem encodeDataTypeField_struct_null_vs_hash_witness :
    encodeDataTypeField structsMail keccakOnes 11 "Person" .vNull = .ok ("bytes32", B32Z) ∧
    encodeDataTypeField structsMail keccakOnes 11 "Person" personSampleV =
      .ok ("bytes32", Value.vBytes (keccakOnes personEnc)) ∧
    Value.vBytes (keccakOnes personEnc) ≠ B32Z := by
  have h := encodeDataTypeField_struct_null_vs_hash structsMail keccakOnes 10 "Person"
    [⟨"name", "string"⟩, ⟨"wallet", "address"⟩] personSampleV personEnc
    (by rfl)
    (by intro b
        have hb : keccakOnes b = List.replicate 32 1 := rfl
        rw [hb]
        decide)
  have h2 := h.2 (fun hc => Value.noConfusion hc) (by rfl)
  exact ⟨h.1, h2.1, h2.2⟩

/-- C7 counterexample: the two arrival forms of the numeric value 5 are
handed to the ABI encoder in different representations; only the big-number
form is stringified, the native integer is passed through unchanged, so
encodeDataTypeField does not produce identical output for the two forms. -/
theorem encodeDataTypeField_uint256_forms_differ :
    encodeDataTypeField structsMail keccakOnes 5 "uint256" (Value.vNum 5) =
      .ok ("uint256", Value.vNum 5) ∧
    encodeDataTypeField structsMail keccakOnes 5 "uint256" (Value.vBN 5) =
      .ok ("uint256", Value.vStr "5") ∧
    Value.vNum 5 ≠ Value.vStr "5" :=
  ⟨rfl, rfl, fun hc => Value.noConfusion hc⟩

/-- C7 amended: the dispatch normalizes a big-number uint256 value to its
canonical decimal string and passes a native integer through unchanged; the
external ABI word encoder maps both representations of the same numeric value
to the same 32-byte word, so the ABI-encoded output is identical for equal
numeric value. -/
theorem encodeDataTypeField_uint256_word_agree
    (structs : Structs) (keccak : Bytes → Bytes) (fuel : Nat) (n : Nat)
    (hreg : lookupStruct structs "uint256" = none) :
    encodeDataTypeField structs keccak (fuel + 1) "uint256" (Value.vNum n) =
      .ok ("uint256", Value.vNum n) ∧
    encodeDataTypeField structs keccak (fuel + 1) "uint256" (Value.vBN n) =
      .ok ("uint256", Value.vStr (natToDecStr n)) ∧
    abiWord ("uint256", Value.vStr (natToDecStr n)) = abiWord ("uint256", Value.vNum n) := by
  have hnone : (lookupStruct structs "uint256").isSome = false := by rw [hreg]; rfl
  refine ⟨?_, ?_, ?_⟩
  · simp [encodeDataTypeField, encodePair, encodeDataTypeFieldStep, hnone,
      uint256Normalize, hasArraySuffix]
  · simp [encodeDataTypeField, encodePair, encodeDataTypeFieldStep, hnone,
      uint256Normalize, hasArraySuffix]
  · simp [abiWord, parseDecStr_natToDecStr n]

/-- Witness for C7 amended at the value 12 on the Mail registry. -/
theorem encodeDataTypeField_uint256_word_agree_witness :
    encodeDataTypeField structsMail keccakOnes 5 "uint256" (Value.vNum 12) =
      .ok ("uint256", Value.vNum 12) ∧
    encodeDataTypeField structsMail keccakOnes 5 "uint256" (Value.vBN 12) =
      .ok ("uint256", Value.vStr (natToDecStr 12)) ∧
    abiWord ("uint256", Value.vStr (natToDecStr 12)) = abiWord ("uint256", Value.vNum 12) :=
  encodeDataTypeField_uint256_word_agree structsMail keccakOnes 4 12 (by rfl)

/-- A successful hashData result is a keccak output. -/
theorem hashData_ok_is_keccak (structs : Structs) (keccak : Bytes → Bytes) (fuel : Nat)
    (type : String) (data : Value) (h : Bytes)
    (hok : hashData structs keccak fuel type data = .ok h) :
    ∃ enc, encodeData structs keccak fuel type data = .ok enc ∧ h = keccak enc := by
  cases henc : encodeData structs keccak fuel type data with
  | ok enc =>
    refine ⟨enc, rfl, ?_⟩
    simp only [hashData, henc, Except.ok.injEq] at hok
    exact hok.symm
  | error e =>
    simp only [hashData, henc] at hok
    exact Except.noConfusion hok

/-- C1: with verify false, encode returns the hex rendering of the
concatenation of the 2-byte prefix 0x19 0x01, the EIP712Domain struct hash of
the payload domain, and, unless the primary type is EIP712Domain itself, the
struct hash of the message under the primary type; the pre-image is 34 raw
bytes in the first case and 66 raw bytes otherwise. -/
theorem encode_preimage_structure
    (structs : Structs) (keccak : Bytes → Bytes) (fuel : Nat)
    (payload : EIP712Payload) (dh mh : Bytes)
    (hk32 : ∀ b, (keccak b).length = 32)
    (hshape : verifyMainPayloadField payload = .ok ())
    (hdom : hashData structs keccak fuel "EIP712Domain" payload.domain = .ok dh)
    (hmsg : payload.primaryType ≠ "EIP712Domain" →
      hashData structs keccak fuel payload.primaryType payload.message = .ok mh) :
    (payload.primaryType = "EIP712Domain" →
      encodeBytes structs keccak fuel payload false = .ok ([25, 1] ++ dh) ∧
      ([25, 1] ++ dh).length = 34 ∧
      encode structs keccak fuel payload false = .ok ("0x" ++ bytesToHex ([25, 1] ++ dh))) ∧
    (payload.primaryType ≠ "EIP712Domain" →
      encodeBytes structs keccak fuel payload false = .ok ([25, 1] ++ dh ++ mh) ∧
      ([25, 1] ++ dh ++ mh).length = 66 ∧
      encode structs keccak fuel payload false =
        .ok ("0x" ++ bytesToHex ([25, 1] ++ dh ++ mh))) := by
  obtain ⟨encD, hencD, hdhk⟩ := hashData_ok_is_keccak structs keccak fuel
    "EIP712Domain" payload.domain dh hdom
  have hdhlen : dh.length = 32 := by rw [hdhk]; exact hk32 encD
  constructor
  · intro heq
    have hb : encodeBytes structs keccak fuel payload false = .ok ([25, 1] ++ dh) := by
      simp [encodeBytes, hshape, hdom, heq, Bind.bind, Except.bind, Pure.pure, Except.pure]
    refine ⟨hb, ?_, ?_⟩
    · simp [hdhlen]
    · simp [encode, hb]
  · intro hne
    obtain ⟨encM, hencM, hmhk⟩ := hashData_ok_is_keccak structs keccak fuel
      payload.primaryType payload.message mh (hmsg hne)
    have hmhlen : mh.length = 32 := by rw [hmhk]; exact hk32 encM
    have hb : encodeBytes structs keccak fuel payload false = .ok ([25, 1] ++ dh ++ mh) := by
      simp [encodeBytes, hshape, hdom, hmsg hne, hne, Bind.bind, Except.bind, Pure.pure, Except.pure]
    refine ⟨hb, ?_, ?_⟩
    · simp [hdhlen, hmhlen]
    · simp [encode, hb]

/-- Witness for C1 on the concrete Mail payload with the degenerate hash. -/
theorem encode_preimage_structure_witness :
    encodeBytes structsMail keccakOnes 10 payloadMail false =
      .ok ([25, 1] ++ List.replicate 32 1 ++ List.replicate 32 1) ∧
    ([25, 1] ++ List.replicate 32 1 ++ List.replicate 32 1).length = 66 ∧
    encode structsMail keccakOnes 10 payloadMail false =
      .ok ("0x" ++ bytesToHex ([25, 1] ++ List.replicate 32 1 ++ List.replicate 32 1)) := by
  have h := encode_preimage_structure structsMail keccakOnes 10 payloadMail
    (List.replicate 32 1) (List.replicate 32 1)
    (fun b => rfl) (by rfl) (by rfl) (fun _ => by rfl)
  exact h.2 (by decide)

/-- Totality of the code point comparison. -/
theorem charListLe_total : ∀ a b : List Char, charListLe a b = true ∨ charListLe b a = true := by
  intro a
  induction a with
  | nil => intro b; exact Or.inl rfl
  | cons x xs ih =>
    intro b
    cases b with
    | nil => exact Or.inr rfl
    | cons y ys =>
      by_cases h1 : x.toNat < y.toNat
      · left; simp [charListLe, h1]
      · by_cases h2 : y.toNat < x.toNat
        · right; simp [charListLe, h2]
        · rcases ih ys with h | h
          · left; simp [charListLe, h1, h2, h]
          · right; simp [charListLe, h1, h2, h]

/-- Transitivity of the code point comparison. -/
theorem charListLe_trans : ∀ a b c : List Char, charListLe a b = true →
    charListLe b c = true → charListLe a c = true := by
  intro a
  induction a with
  | nil => intro b c _ _; rfl
  | cons x xs ih =>
    intro b c hab hbc
    cases b with
    | nil => simp [charListLe] at hab
    | cons y ys =>
      cases c with
      | nil => simp [charListLe] at hbc
      | cons z zs =>
        simp only [charListLe] at hab hbc ⊢
        by_cases hxy : x.toNat < y.toNat
        · by_cases hyz : y.toNat < z.toNat
          · simp [show x.toNat < z.toNat by omega]
          · by_cases hzy : z.toNat < y.toNat
            · rw [if_pos hxy] at hab
              rw [if_neg hyz, if_pos hzy] at hbc
              exact absurd hbc (by simp)
            · simp [show x.toNat < z.toNat by omega]
        · by_cases hyx : y.toNat < x.toNat
          · rw [if_neg hxy, if_pos hyx] at hab
            exact absurd hab (by simp)
          · by_cases hyz : y.toNat < z.toNat
            · simp [show x.toNat < z.toNat by omega]
            · by_cases hzy : z.toNat < y.toNat
              · rw [if_neg hyz, if_pos hzy] at hbc
                exact absurd hbc (by simp)
              · rw [if_neg hxy, if_neg hyx] at hab
                rw [if_neg hyz, if_neg hzy] at hbc
                rw [if_neg (by omega), if_neg (by omega)]
                exact ih ys zs hab hbc

instance : IsTotal String (fun a b => strLe a b = true) :=
  ⟨fun a b => charListLe_total a.data b.data⟩

instance : IsTrans String (fun a b => strLe a b = true) :=
  ⟨fun a b c => charListLe_trans a.data b.data c.data⟩

/-- Concatenation of a block list with no separator (spec side). -/
def joinBlocks : List String → String
  | [] => ""
  | b :: bs => b ++ joinBlocks bs

/-- Look up every type of the list and render its block. -/
def mapLookupBlocks (structs : Structs) : List String → Option (List String)
  | [] => some []
  | t :: ts =>
    match lookupStruct structs t with
    | none => none
    | some fields =>
      match mapLookupBlocks structs ts with
      | none => none
      | some bs => some (encodeTypeBlock t fields :: bs)

/-- The canonical type signature as the spec words it: one block per type,
the primary type first, the remaining dependencies sorted lexicographically
ascending, blocks concatenated with no separator. -/
def encodeTypeSignatureSpec (structs : Structs) (type : String) : Option String :=
  (mapLookupBlocks structs (type :: List.insertionSort (fun a b => strLe a b = true)
    ((getDependenciesOf structs type []).filter (fun d => d != type)))).map joinBlocks

/-- The source accumulation loop never recovers from a failed lookup. -/
theorem encodeTypeFoldl_none (structs : Structs) :
    ∀ ts : List String, ts.foldl (fun a t => a.bind (fun s => (lookupStruct structs t).map
      (fun fields => s ++ encodeTypeBlock t fields))) none = none := by
  intro ts
  induction ts with
  | nil => rfl
  | cons t ts ih => simpa [Option.bind] using ih

/-- The source accumulation loop equals the spec-side block rendering. -/
theorem encodeTypeFoldl_eq (structs : Structs) :
    ∀ (ts : List String) (acc : String),
      ts.foldl (fun a t => a.bind (fun s => (lookupStruct structs t).map
        (fun fields => s ++ encodeTypeBlock t fields))) (some acc) =
      (mapLookupBlocks structs ts).map (fun bs => acc ++ joinBlocks bs) := by
  intro ts
  induction ts with
  | nil =>
    intro acc
    simp [mapLookupBlocks, joinBlocks]
  | cons t ts ih =>
    intro acc
    cases hlook : lookupStruct structs t with
    | none =>
      simp only [List.foldl_cons, hlook, Option.some_bind, Option.map_none']
      rw [encodeTypeFoldl_none structs ts]
      simp [mapLookupBlocks, hlook]
    | some fields =>
      simp only [List.foldl_cons, hlook, Option.some_bind, Option.map_some']
      rw [ih (acc ++ encodeTypeBlock t fields)]
      simp only [mapLookupBlocks, hlook]
      cases mapLookupBlocks structs ts with
      | none => rfl
      | some bs => simp [joinBlocks, String.append_assoc]

/-- Block rendering succeeds when every listed type is registered. -/
theorem mapLookupBlocks_isSome (structs : Structs) :
    ∀ ts : List String, (∀ t ∈ ts, (lookupStruct structs t).isSome) →
      (mapLookupBlocks structs ts).isSome := by
  intro ts
  induction ts with
  | nil => intro _; rfl
  | cons t ts ih =>
    intro h
    have ht := h t (List.mem_cons_self t ts)
    cases hlook : lookupStruct structs t with
    | none => rw [hlook] at ht; cases ht
    | some fields =>
      have hrest := ih (fun x hx => h x (List.mem_cons_of_mem t hx))
      cases hrest2 : mapLookupBlocks structs ts with
      | none => rw [hrest2] at hrest; cases hrest
      | some bs => simp [mapLookupBlocks, hlook, hrest2]

/-- Every name returned by getDependenciesOf is registered. -/
theorem getDependenciesOf_registered (structs : Structs) (type : String) (met : List String) :
    ∀ x ∈ getDependenciesOf structs type met, (lookupStruct structs x).isSome := by
  obtain ⟨m2, hgo⟩ := getDependenciesOf_spec structs type met _ (Nat.le_refl _)
  intro x hx
  exact ((getDepsGo_sound structs _ met type _ m2 hgo).2.2 x hx).2

/-- C2: for every registered struct name, encodeTypeSignature equals the
concatenation, with no separator, of one block per type (each block listing
the fields of the type in schema-declared order), where the type order is the
name itself first followed by its remaining transitive dependencies sorted
lexicographically ascending; and hashType is the keccak-256 of the UTF-8
bytes of that string. -/
theorem encodeTypeSignature_canonical
    (structs : Structs) (keccak : Bytes → Bytes) (typeName : String) (fields : EIP712Struct)
    (hreg : lookupStruct structs typeName = some fields) :
    ∃ s, encodeTypeSignature structs typeName = some s ∧
      encodeTypeSignatureSpec structs typeName = some s ∧
      List.Sorted (fun a b => strLe a b = true)
        (List.insertionSort (fun a b => strLe a b = true)
          ((getDependenciesOf structs typeName []).filter (fun d => d != typeName))) ∧
      (List.insertionSort (fun a b => strLe a b = true)
          ((getDependenciesOf structs typeName []).filter (fun d => d != typeName))).Perm
        ((getDependenciesOf structs typeName []).filter (fun d => d != typeName)) ∧
      hashType keccak structs typeName = some (keccak (strToBytes s)) := by
  have hregall : ∀ t ∈ typeName :: List.insertionSort (fun a b => strLe a b = true)
      ((getDependenciesOf structs typeName []).filter (fun d => d != typeName)),
      (lookupStruct structs t).isSome := by
    intro t ht
    rcases List.mem_cons.mp ht with h | h
    · subst h; rw [hreg]; rfl
    · have hmem := (List.perm_insertionSort (fun a b => strLe a b = true)
        ((getDependenciesOf structs typeName []).filter (fun d => d != typeName))).mem_iff.mp h
      exact getDependenciesOf_registered structs typeName []
        t (List.mem_of_mem_filter hmem)
  have hsome := mapLookupBlocks_isSome structs _ hregall
  cases hmap : mapLookupBlocks structs (typeName :: List.insertionSort
      (fun a b => strLe a b = true)
      ((getDependenciesOf structs typeName []).filter (fun d => d != typeName))) with
  | none => rw [hmap] at hsome; cases hsome
  | some bs =>
    refine ⟨joinBlocks bs, ?_, ?_, ?_, ?_, ?_⟩
    · simp only [encodeTypeSignature]
      rw [encodeTypeFoldl_eq structs _ ""]
      rw [hmap]
      simp
    · simp only [encodeTypeSignatureSpec]
      rw [hmap]
      rfl
    · exact List.sorted_insertionSort _ _
    · exact List.perm_insertionSort _ _
    · have henc : encodeTypeSignature structs typeName = some (joinBlocks bs) := by
        simp only [encodeTypeSignature]
        rw [encodeTypeFoldl_eq structs _ ""]
        rw [hmap]
        simp
      simp [hashType, henc]

/-- Witness for C2 on the Mail registry. -/
theorem encodeTypeSignature_canonical_witness :
    (∃ s, encodeTypeSignature structsMail "Mail" = some s ∧
      encodeTypeSignatureSpec structsMail "Mail" = some s ∧
      List.Sorted (fun a b => strLe a b = true)
        (List.insertionSort (fun a b => strLe a b = true)
          ((getDependenciesOf structsMail "Mail" []).filter (fun d => d != "Mail"))) ∧
      (List.insertionSort (fun a b => strLe a b = true)
          ((getDependenciesOf structsMail "Mail" []).filter (fun d => d != "Mail"))).Perm
        ((getDependenciesOf structsMail "Mail" []).filter (fun d => d != "Mail")) ∧
      hashType keccakOnes structsMail "Mail" = some (keccakOnes (strToBytes s))) ∧
    encodeTypeSignature structsMail "Mail" =
      some "Mail(Person from,Person to,string contents)Person(string name,address wallet)" :=
  ⟨encodeTypeSignature_canonical structsMail keccakOnes "Mail"
    [⟨"from", "Person"⟩, ⟨"to", "Person"⟩, ⟨"contents", "string"⟩] (by rfl), by decide⟩

/-- Lookup fails exactly on names outside the key list. -/
theorem lookupStruct_eq_none_iff (structs : Structs) (name : String) :
    lookupStruct structs name = none ↔ name ∉ structs.map Prod.fst := by
  induction structs with
  | nil => simp [lookupStruct]
  | cons p rest ih =>
    match p with
    | (k, v) =>
      by_cases hk : k = name
      · subst hk; simp [lookupStruct]
      · simp only [lookupStruct, if_neg hk, List.map_cons, List.mem_cons]
        rw [ih]
        constructor
        · intro h hc
          rcases hc with hc | hc
          · exact hk hc.symm
          · exact h hc
        · intro h hc
          exact h (Or.inr hc)

/-- A successful lookup yields a member pair. -/
theorem lookupStruct_mem_pair (structs : Structs) (name : String) (s : EIP712Struct)
    (h : lookupStruct structs name = some s) : (name, s) ∈ structs := by
  induction structs with
  | nil => cases h
  | cons p rest ih =>
    match p with
    | (k, v) =>
      by_cases hk : k = name
      · subst hk
        simp [lookupStruct] at h
        subst h
        exact List.mem_cons_self _ _
      · simp only [lookupStruct, if_neg hk] at h
        exact List.mem_cons_of_mem _ (ih h)

/-- With duplicate-free keys, membership determines the lookup result. -/
theorem lookupStruct_of_mem (structs : Structs) (name : String) (s : EIP712Struct)
    (hmem : (name, s) ∈ structs) (hnd : (structs.map Prod.fst).Nodup) :
    lookupStruct structs name = some s := by
  induction structs with
  | nil => cases hmem
  | cons p rest ih =>
    match p with
    | (k, v) =>
      rw [List.map_cons, List.nodup_cons] at hnd
      rcases List.mem_cons.mp hmem with h | h
      · rw [Prod.mk.injEq] at h
        obtain ⟨hk, hv⟩ := h
        subst hk; subst hv
        simp [lookupStruct]
      · have hk : k ≠ name := by
          intro hc
          subst hc
          exact hnd.1 (List.mem_map.mpr ⟨(k, s), h, rfl⟩)
        simp only [lookupStruct, if_neg hk]
        exact ih h hnd.2

/-- Permuting a duplicate-free registry does not change any lookup. -/
theorem lookupStruct_perm (s1 s2 : Structs) (hperm : s1.Perm s2)
    (hnd : (s1.map Prod.fst).Nodup) :
    ∀ k, lookupStruct s1 k = lookupStruct s2 k := by
  intro k
  have hnd2 : (s2.map Prod.fst).Nodup := (hperm.map Prod.fst).nodup_iff.mp hnd
  cases h1 : lookupStruct s1 k with
  | some s =>
    exact (lookupStruct_of_mem s2 k s (hperm.mem_iff.mp
      (lookupStruct_mem_pair s1 k s h1)) hnd2).symm
  | none =>
    have hk : k ∉ s1.map Prod.fst := (lookupStruct_eq_none_iff s1 k).mp h1
    have hk2 : k ∉ s2.map Prod.fst := fun hc =>
      hk ((hperm.map Prod.fst).mem_iff.mpr hc)
    exact ((lookupStruct_eq_none_iff s2 k).mpr hk2).symm

/-- The constructor fold appends the provided pairs and keeps keys unique. -/
theorem mkSignerStructs_go (tys : List (String × EIP712Struct)) :
    ∀ acc s, tys.foldlM (fun a t => addType a t.1 t.2) acc = .ok s →
      s = acc ++ tys ∧ ((acc.map Prod.fst).Nodup → (s.map Prod.fst).Nodup) := by
  induction tys with
  | nil =>
    intro acc s h
    simp only [List.foldlM_nil] at h
    cases h
    exact ⟨(List.append_nil acc).symm, fun hnd => hnd⟩
  | cons t tys ih =>
    intro acc s h
    simp only [List.foldlM_cons] at h
    cases hadd : addType acc t.1 t.2 with
    | error e =>
      rw [hadd] at h
      exact Except.noConfusion h
    | ok a2 =>
      rw [hadd] at h
      simp only [addType] at hadd
      by_cases hdup : (lookupStruct acc t.1).isSome = true
      · rw [if_pos hdup] at hadd; exact Except.noConfusion hadd
      · rw [if_neg hdup] at hadd
        have ha2 : a2 = acc ++ [(t.1, t.2)] := by
          cases hadd; rfl
        subst ha2
        obtain ⟨hs, hnd⟩ := ih (acc ++ [(t.1, t.2)]) s h
        constructor
        · rw [hs, List.append_assoc]
          simp
        · intro hacc
          apply hnd
          rw [List.map_append, List.nodup_append]
          refine ⟨hacc, by simp, ?_⟩
          intro x hx hx2
          simp only [List.map_cons, List.map_nil, List.mem_cons, List.not_mem_nil,
            or_false] at hx2
          subst hx2
          have hnone : lookupStruct acc t.1 = none := by
            cases hl : lookupStruct acc t.1 with
            | none => rfl
            | some v => rw [hl] at hdup; exact absurd rfl hdup
          exact (lookupStruct_eq_none_iff acc t.1).mp hnone hx

/-- A successfully constructed signer registry is the domain entry followed by
the provided pairs, and its keys are duplicate-free. -/
theorem mkSignerStructs_ok (tys : List (String × EIP712Struct)) (s : Structs)
    (h : mkSignerStructs tys = .ok s) :
    s = ("EIP712Domain", EIP712DomainType) :: tys ∧ (s.map Prod.fst).Nodup := by
  obtain ⟨hs, hnd⟩ := mkSignerStructs_go tys [("EIP712Domain", EIP712DomainType)] s h
  exact ⟨by simpa using hs, hnd (by decide)⟩

/-- The fuel bound is invariant under registry permutation. -/
theorem sufficientFuel_perm (s1 s2 : Structs) (hperm : s1.Perm s2)
    (met : List String) (t : String) :
    sufficientFuel s1 met t = sufficientFuel s2 met t := by
  unfold sufficientFuel sumFieldTypeLen countNotMet
  rw [(hperm.map _).sum_eq, ((hperm.map Prod.fst).filter _).length_eq]

/-- The dependency list is invariant under registry permutation (for
duplicate-free key sets). -/
theorem getDependenciesOf_perm (s1 s2 : Structs) (hperm : s1.Perm s2)
    (hlook : ∀ k, lookupStruct s1 k = lookupStruct s2 k) (t : String) (met : List String) :
    getDependenciesOf s1 t met = getDependenciesOf s2 t met := by
  unfold getDependenciesOf
  rw [sufficientFuel_perm s1 s2 hperm met t, getDepsGo_congr s1 s2 hlook]

/-- The signature accumulation loop only depends on the registry through
lookups. -/
theorem encodeTypeFoldl_congr (s1 s2 : Structs)
    (hlook : ∀ k, lookupStruct s1 k = lookupStruct s2 k) :
    ∀ (ts : List String) (a : Option String),
      ts.foldl (fun a t => a.bind (fun s => (lookupStruct s1 t).map
        (fun fields => s ++ encodeTypeBlock t fields))) a =
      ts.foldl (fun a t => a.bind (fun s => (lookupStruct s2 t).map
        (fun fields => s ++ encodeTypeBlock t fields))) a := by
  intro ts a
  simp only [hlook]

/-- C8: two signer instances constructed from the same domain and the same
set of (name, schema) pairs supplied in any order yield an identical
canonical type signature for every type name. -/
theorem encodeTypeSignature_order_invariant
    (tys1 tys2 : List (String × EIP712Struct)) (s1 s2 : Structs)
    (h1 : mkSignerStructs tys1 = .ok s1) (h2 : mkSignerStructs tys2 = .ok s2)
    (hperm : tys1.Perm tys2) (name : String) :
    encodeTypeSignature s1 name = encodeTypeSignature s2 name := by
  obtain ⟨hs1, hnd1⟩ := mkSignerStructs_ok tys1 s1 h1
  obtain ⟨hs2, _⟩ := mkSignerStructs_ok tys2 s2 h2
  have hperm12 : s1.Perm s2 := by
    rw [hs1, hs2]
    exact hperm.cons _
  have hlook := lookupStruct_perm s1 s2 hperm12 hnd1
  unfold encodeTypeSignature
  rw [getDependenciesOf_perm s1 s2 hperm12 hlook name []]
  exact encodeTypeFoldl_congr s1 s2 hlook _ _

/-- Witness for C8: the Mail registry built in two different orders. -/
theorem encodeTypeSignature_order_invariant_witness :
    encodeTypeSignature
      [("EIP712Domain", EIP712DomainType),
       ("Person", [⟨"name", "string"⟩, ⟨"wallet", "address"⟩]),
       ("Mail", [⟨"from", "Person"⟩, ⟨"to", "Person"⟩, ⟨"contents", "string"⟩])] "Mail" =
    encodeTypeSignature
      [("EIP712Domain", EIP712DomainType),
       ("Mail", [⟨"from", "Person"⟩, ⟨"to", "Person"⟩, ⟨"contents", "string"⟩]),
       ("Person", [⟨"name", "string"⟩, ⟨"wallet", "address"⟩])] "Mail" :=
  encodeTypeSignature_order_invariant
    [("Person", [⟨"name", "string"⟩, ⟨"wallet", "address"⟩]),
     ("Mail", [⟨"from", "Person"⟩, ⟨"to", "Person"⟩, ⟨"contents", "string"⟩])]
    [("Mail", [⟨"from", "Person"⟩, ⟨"to", "Person"⟩, ⟨"contents", "string"⟩]),
     ("Person", [⟨"name", "string"⟩, ⟨"wallet", "address"⟩])]
    _ _ (by rfl) (by rfl) (by decide) "Mail"

/-- Spec-side predicate for the per-type check of verifyTypes: every claimed
type is registered and every claimed field exists by name in the registered
schema with an identical declared type string (a payload may declare fewer
fields than the registry). -/
def TypesMatch (structs : Structs) (tys : List (String × EIP712Struct)) : Prop :=
  ∀ p ∈ tys, ∃ registered, lookupStruct structs p.1 = some registered ∧
    ∀ f ∈ p.2, ∃ rf, registered.find? (fun g => g.name == f.name) = some rf ∧ f.type = rf.type

/-- The field check loop succeeds exactly on matching field lists. -/
theorem verifyFieldsLoop_ok_iff (typeName : String) (registered : EIP712Struct) :
    ∀ claimed, verifyFieldsLoop typeName registered claimed = .ok () ↔
      ∀ f ∈ claimed, ∃ rf, registered.find? (fun g => g.name == f.name) = some rf ∧
        f.type = rf.type := by
  intro claimed
  induction claimed with
  | nil => simp [verifyFieldsLoop]
  | cons f fs ih =>
    cases hfind : registered.find? (fun g => g.name == f.name) with
    | none =>
      simp only [verifyFieldsLoop, hfind]
      constructor
      · intro h; exact Except.noConfusion h
      · intro h
        obtain ⟨rf, hrf, _⟩ := h f (List.mem_cons_self f fs)
        rw [hfind] at hrf
        exact Option.noConfusion hrf
    | some rf =>
      by_cases hty : f.type = rf.type
      · simp only [verifyFieldsLoop, hfind, if_neg (not_not_intro hty)]
        rw [ih]
        constructor
        · intro h g hg
          rcases List.mem_cons.mp hg with hg1 | hg2
          · subst hg1; exact ⟨rf, hfind, hty⟩
          · exact h g hg2
        · intro h g hg
          exact h g (List.mem_cons_of_mem f hg)
      · simp only [verifyFieldsLoop, hfind, if_pos hty]
        constructor
        · intro h; exact Except.noConfusion h
        · intro h
          obtain ⟨rf2, hrf2, hty2⟩ := h f (List.mem_cons_self f fs)
          rw [hfind] at hrf2
          cases hrf2
          exact absurd hty2 hty

/-- A field check error names a claimed field that is unknown or mismatched. -/
theorem verifyFieldsLoop_error (typeName : String) (registered : EIP712Struct) :
    ∀ claimed e, verifyFieldsLoop typeName registered claimed = .error e →
      ∃ f ∈ claimed, e = .fieldMismatch typeName f.name ∧
        (registered.find? (fun g => g.name == f.name) = none ∨
          ∃ rf, registered.find? (fun g => g.name == f.name) = some rf ∧ f.type ≠ rf.type) := by
  intro claimed
  induction claimed with
  | nil => intro e h; exact Except.noConfusion h
  | cons f fs ih =>
    intro e h
    cases hfind : registered.find? (fun g => g.name == f.name) with
    | none =>
      simp only [verifyFieldsLoop, hfind] at h
      cases h
      exact ⟨f, List.mem_cons_self f fs, rfl, Or.inl hfind⟩
    | some rf =>
      by_cases hty : f.type = rf.type
      · simp only [verifyFieldsLoop, hfind, if_neg (not_not_intro hty)] at h
        obtain ⟨g, hg, he, hw⟩ := ih e h
        exact ⟨g, List.mem_cons_of_mem f hg, he, hw⟩
      · simp only [verifyFieldsLoop, hfind, if_pos hty] at h
        cases h
        exact ⟨f, List.mem_cons_self f fs, rfl, Or.inr ⟨rf, hfind, hty⟩⟩

/-- The type loop succeeds exactly on payload type tables that match the
registry. -/
theorem verifyTypesLoop_ok_iff (structs : Structs) :
    ∀ tys, verifyTypesLoop structs tys = .ok () ↔ TypesMatch structs tys := by
  intro tys
  induction tys with
  | nil => simp [verifyTypesLoop, TypesMatch]
  | cons p rest ih =>
    match p with
    | (t, claimed) =>
      cases hlook : lookupStruct structs t with
      | none =>
        simp only [verifyTypesLoop, hlook]
        constructor
        · intro h; exact Except.noConfusion h
        · intro h
          obtain ⟨reg, hreg, _⟩ := h (t, claimed) (List.mem_cons_self _ _)
          rw [hlook] at hreg
          exact Option.noConfusion hreg
      | some registered =>
        cases hfl : verifyFieldsLoop t registered claimed with
        | error e =>
          simp only [verifyTypesLoop, hlook, hfl]
          constructor
          · intro h; exact Except.noConfusion h
          · intro h
            obtain ⟨reg, hreg, hfields⟩ := h (t, claimed) (List.mem_cons_self _ _)
            rw [hlook] at hreg
            cases hreg
            have := (verifyFieldsLoop_ok_iff t registered claimed).mpr hfields
            rw [hfl] at this
            exact Except.noConfusion this
        | ok u =>
          cases u
          simp only [verifyTypesLoop, hlook, hfl]
          rw [ih]
          constructor
          · intro h q hq
            rcases List.mem_cons.mp hq with hq1 | hq2
            · subst hq1
              exact ⟨registered, hlook,
                (verifyFieldsLoop_ok_iff t registered claimed).mp hfl⟩
            · exact h q hq2
          · intro h q hq
            exact h q (List.mem_cons_of_mem _ hq)

/-- A type loop error is an unknown type or a field mismatch, witnessed in
the payload type table. -/
theorem verifyTypesLoop_error (structs : Structs) :
    ∀ tys e, verifyTypesLoop structs tys = .error e →
      (∃ t claimed, (t, claimed) ∈ tys ∧ lookupStruct structs t = none ∧
        e = .unknownType t) ∨
      (∃ t claimed registered f, (t, claimed) ∈ tys ∧
        lookupStruct structs t = some registered ∧ f ∈ claimed ∧
        e = .fieldMismatch t f.name ∧
        (registered.find? (fun g => g.name == f.name) = none ∨
          ∃ rf, registered.find? (fun g => g.name == f.name) = some rf ∧
            f.type ≠ rf.type)) := by
  intro tys
  induction tys with
  | nil => intro e h; exact Except.noConfusion h
  | cons p rest ih =>
    match p with
    | (t, claimed) =>
      intro e h
      cases hlook : lookupStruct structs t with
      | none =>
        simp only [verifyTypesLoop, hlook] at h
        cases h
        exact Or.inl ⟨t, claimed, List.mem_cons_self _ _, hlook, rfl⟩
      | some registered =>
        cases hfl : verifyFieldsLoop t registered claimed with
        | error e2 =>
          simp only [verifyTypesLoop, hlook, hfl] at h
          cases h
          obtain ⟨f, hf, he, hw⟩ := verifyFieldsLoop_error t registered claimed _ hfl
          exact Or.inr ⟨t, claimed, registered, f, List.mem_cons_self _ _, hlook, hf, he, hw⟩
        | ok u =>
          cases u
          simp only [verifyTypesLoop, hlook, hfl] at h
          rcases ih e h with ⟨t2, c2, hmem, hl, he⟩ | ⟨t2, c2, r2, f2, hmem, hl, hf, he, hw⟩
          · exact Or.inl ⟨t2, c2, List.mem_cons_of_mem _ hmem, hl, he⟩
          · exact Or.inr ⟨t2, c2, r2, f2, List.mem_cons_of_mem _ hmem, hl, hf, he, hw⟩

/-- C6: the Types validation raises the count mismatch exactly when the
payload type-name count differs from the size of the required set (the
domain type together with the transitive dependencies of the primary type);
with matching counts it succeeds exactly when every claimed type is
registered and every claimed field matches the registry by name and type
string (declaring fewer fields is accepted), and any failure is an unknown
type or a field mismatch witnessed in the payload table. -/
theorem verifyTypes_characterization (structs : Structs) (payload : EIP712Payload) :
    (requiredTypeKeys structs payload.primaryType).Nodup ∧
    (∀ x, x ∈ requiredTypeKeys structs payload.primaryType ↔
      x = "EIP712Domain" ∨ x ∈ getDependenciesOf structs payload.primaryType []) ∧
    (payload.types.length ≠ (requiredTypeKeys structs payload.primaryType).length →
      verifyTypes structs payload = .error .typeCountMismatch) ∧
    (payload.types.length = (requiredTypeKeys structs payload.primaryType).length →
      (verifyTypes structs payload = .ok () ↔ TypesMatch structs payload.types)) ∧
    (∀ e, verifyTypes structs payload = .error e → e ≠ .typeCountMismatch →
      (∃ t claimed, (t, claimed) ∈ payload.types ∧ lookupStruct structs t = none ∧
        e = .unknownType t) ∨
      (∃ t claimed registered f, (t, claimed) ∈ payload.types ∧
        lookupStruct structs t = some registered ∧ f ∈ claimed ∧
        e = .fieldMismatch t f.name ∧
        (registered.find? (fun g => g.name == f.name) = none ∨
          ∃ rf, registered.find? (fun g => g.name == f.name) = some rf ∧
            f.type ≠ rf.type))) := by
  have hdepnodup : (getDependenciesOf structs payload.primaryType []).Nodup := by
    obtain ⟨m2, hgo⟩ := getDependenciesOf_spec structs payload.primaryType [] _ (Nat.le_refl _)
    exact (getDepsGo_sound structs _ [] payload.primaryType _ m2 hgo).2.1
  refine ⟨?_, ?_, ?_, ?_, ?_⟩
  · rw [requiredTypeKeys, List.nodup_cons]
    refine ⟨?_, hdepnodup.filter _⟩
    intro hc
    have := List.of_mem_filter hc
    simp at this
  · intro x
    rw [requiredTypeKeys, List.mem_cons, List.mem_filter]
    by_cases hx : x = "EIP712Domain"
    · simp [hx]
    · simp [hx]
  · intro hne
    simp [verifyTypes, hne]
  · intro heq
    rw [verifyTypes, if_neg (by omega)]
    exact verifyTypesLoop_ok_iff structs payload.types
  · intro e h hne
    by_cases hcnt : payload.types.length = (requiredTypeKeys structs payload.primaryType).length
    · rw [verifyTypes, if_neg (by omega)] at h
      exact verifyTypesLoop_error structs payload.types e h
    · rw [verifyTypes, if_pos (by omega)] at h
      cases h
      exact absurd rfl hne

/-- Witness for C6 on the concrete Mail payload. -/
theorem verifyTypes_characterization_witness :
    verifyTypes structsMail payloadMail = .ok () ∧
    payloadMail.types.length = (requiredTypeKeys structsMail payloadMail.primaryType).length ∧
    TypesMatch structsMail payloadMail.types := by
  have h := verifyTypes_characterization structsMail payloadMail
  have hlen : payloadMail.types.length =
      (requiredTypeKeys structsMail payloadMail.primaryType).length := by decide
  have hok : verifyTypes structsMail payloadMail = .ok () := by decide
  exact ⟨hok, hlen, (h.2.2.2.1 hlen).mp hok⟩

/-- Registry with a nested struct: B contains an A. -/
def structsAB : Structs :=
  [("EIP712Domain", EIP712DomainType),
   ("A", [⟨"x", "uint256"⟩]),
   ("B", [⟨"a", "A"⟩, ⟨"y", "uint256"⟩])]

/-- A record for B whose top-level fields are all present but whose nested A
record is empty. -/
def recordB : List (String × Value) := [("a", Value.vObj []), ("y", Value.vNum 5)]

/-- C5 counterexample: encoding B raises a MissingField error (for the nested
type A) although every field declared in the schema of B is present in the
record, so MissingField is not raised exactly when a field declared in the
schema of the encoded type is strictly unset in the record. -/
theorem encodeStruct_missingField_not_exact :
    encodeData structsAB keccakOnes 10 "B" (Value.vObj recordB) =
      .error (.missingField "A" "x") ∧
    (lookupField recordB "a").isSome = true ∧
    (lookupField recordB "y").isSome = true :=
  ⟨rfl, rfl, rfl⟩

/-- The field loop splits over list append. -/
theorem encodeFieldsLoop_append (rec : FieldEnc) (name : String)
    (record : List (String × Value)) (fs1 fs2 : List EIP712StructField) :
    encodeFieldsLoop rec name record (fs1 ++ fs2) =
      match encodeFieldsLoop rec name record fs1 with
      | .error e => .error e
      | .ok ps =>
        match encodeFieldsLoop rec name record fs2 with
        | .error e => .error e
        | .ok ps2 => .ok (ps ++ ps2) := by
  induction fs1 with
  | nil =>
    simp only [List.nil_append, encodeFieldsLoop]
    cases encodeFieldsLoop rec name record fs2 with
    | error e => rfl
    | ok ps2 => rfl
  | cons f fs ih =>
    cases hlf : lookupField record f.name with
    | none => simp only [List.cons_append, encodeFieldsLoop, hlf]
    | some v =>
      cases hrec : rec f.type v with
      | error e => simp only [List.cons_append, encodeFieldsLoop, hlf, hrec]
      | ok p =>
        simp only [List.cons_append, encodeFieldsLoop, hlf, hrec, List.append_eq]
        rw [ih]
        cases encodeFieldsLoop rec name record fs with
        | error e => rfl
        | ok ps =>
          cases encodeFieldsLoop rec name record fs2 with
          | error e => rfl
          | ok ps2 => rfl

/-- A successful field loop means every declared field was present. -/
theorem encodeFieldsLoop_ok_present (rec : FieldEnc) (name : String)
    (record : List (String × Value)) :
    ∀ fs ps, encodeFieldsLoop rec name record fs = .ok ps →
      ∀ g ∈ fs, (lookupField record g.name).isSome := by
  intro fs
  induction fs with
  | nil => intro ps _ g hg; cases hg
  | cons f fs ih =>
    intro ps h g hg
    cases hlf : lookupField record f.name with
    | none => simp only [encodeFieldsLoop, hlf] at h; exact Except.noConfusion h
    | some v =>
      rcases List.mem_cons.mp hg with hg1 | hg2
      · subst hg1; rw [hlf]; rfl
      · simp only [encodeFieldsLoop, hlf] at h
        cases hrec : rec f.type v with
        | error e => rw [hrec] at h; exact Except.noConfusion h
        | ok p =>
          rw [hrec] at h
          cases hrest : encodeFieldsLoop rec name record fs with
          | error e => rw [hrest] at h; exact Except.noConfusion h
          | ok ps2 => exact ih ps2 hrest g hg2

/-- C5 amended: encodeStruct raises MissingField for the type being encoded
at the first schema field that is strictly unset in the record, provided the
fields before it encode successfully (a MissingField error can also surface
from a nested struct record); an explicitly null struct-typed field is legal,
contributes the all-zero word and raises nothing; and when every declared
field is present and encodes successfully the result is the ABI encoding of
(bytes32, hashType(name)) followed by the encoded fields in schema order. -/
theorem encodeStruct_missingField_behavior
    (structs : Structs) (keccak : Bytes → Bytes) (fuel : Nat) (name : String)
    (fields pre post : EIP712Struct) (f : EIP712StructField)
    (record : List (String × Value)) (ps : List (String × Value)) (ht : Bytes)
    (hreg : lookupStruct structs name = some fields)
    (hht : hashType keccak structs name = some ht) :
    (fields = pre ++ f :: post →
      lookupField record f.name = none →
      encodeFieldsLoop (encodeDataTypeField structs keccak (fuel + 1)) name record pre =
        .ok ps →
      encodeData structs keccak (fuel + 2) name (Value.vObj record) =
        .error (.missingField name f.name)) ∧
    (fields = pre ++ f :: post →
      lookupField record f.name = some .vNull →
      (lookupStruct structs f.type).isSome →
      encodeFieldsLoop (encodeDataTypeField structs keccak (fuel + 1)) name record pre =
        .ok ps →
      encodeFieldsLoop (encodeDataTypeField structs keccak (fuel + 1)) name record fields =
        match encodeFieldsLoop (encodeDataTypeField structs keccak (fuel + 1)) name record
            post with
        | .error e => .error e
        | .ok ps2 => .ok (ps ++ ("bytes32", B32Z) :: ps2)) ∧
    (encodeFieldsLoop (encodeDataTypeField structs keccak (fuel + 1)) name record fields =
        .ok ps →
      encodeData structs keccak (fuel + 2) name (Value.vObj record) =
        abiEncode (("bytes32", Value.vBytes ht) :: ps) ∧
      ∀ g ∈ fields, (lookupField record g.name).isSome) := by
  refine ⟨?_, ?_, ?_⟩
  · intro hsplit hunset hpre
    have hloop : encodeFieldsLoop (encodeDataTypeField structs keccak (fuel + 1)) name record
        fields = .error (.missingField name f.name) := by
      rw [hsplit, encodeFieldsLoop_append, hpre]
      simp only [encodeFieldsLoop, hunset]
    show encodeDataStep structs keccak (encodeDataTypeField structs keccak (fuel + 1)) name
        (Value.vObj record) = .error (.missingField name f.name)
    simp only [encodeDataStep, hreg, hht, hloop]
  · intro hsplit hnull hftype hpre
    rw [hsplit, encodeFieldsLoop_append, hpre]
    have hnullenc : encodeDataTypeField structs keccak (fuel + 1) f.type Value.vNull =
        .ok ("bytes32", B32Z) := by
      show encodeDataTypeFieldStep structs keccak (encodeDataTypeField structs keccak fuel)
        (encodeData structs keccak fuel) f.type Value.vNull = .ok ("bytes32", B32Z)
      simp [encodeDataTypeFieldStep, hftype]
    simp only [encodeFieldsLoop, hnull, hnullenc]
    cases encodeFieldsLoop (encodeDataTypeField structs keccak (fuel + 1)) name record post with
    | error e => rfl
    | ok ps2 => rfl
  · intro hloop
    constructor
    · show encodeDataStep structs keccak (encodeDataTypeField structs keccak (fuel + 1)) name
        (Value.vObj record) = abiEncode (("bytes32", Value.vBytes ht) :: ps)
      simp only [encodeDataStep, hreg, hht, hloop]
    · exact encodeFieldsLoop_ok_present _ name record fields ps hloop

/-- A record for B with the top-level field y strictly unset. -/
def recordBNoY : List (String × Value) := [("a", Value.vObj [("x", Value.vNum 1)])]

/-- The encoded prefix of recordBNoY (the a field alone). -/
def psPreB : List (String × Value) :=
  ((encodeFieldsLoop (encodeDataTypeField structsAB keccakOnes 9) "B" recordBNoY
    [⟨"a", "A"⟩]).toOption).getD []

/-- Witness for C5 amended: B with y unset raises MissingField B y; the full
record encodes to the ABI pair list. -/
theorem encodeStruct_missingField_behavior_witness :
    encodeData structsAB keccakOnes 10 "B" (Value.vObj recordBNoY) =
      .error (.missingField "B" "y") ∧
    encodeData structsAB keccakOnes 10 "B" (Value.vObj recordB) =
      .error (.missingField "A" "x") := by
  have h := encodeStruct_missingField_behavior structsAB keccakOnes 8 "B"
    [⟨"a", "A"⟩, ⟨"y", "uint256"⟩] [⟨"a", "A"⟩] [] ⟨"y", "uint256"⟩
    recordBNoY psPreB (List.replicate 32 1) (by rfl) (by rfl)
  exact ⟨h.1 (by rfl) (by rfl) (by rfl), rfl⟩

/-- A parsed hex digit is below 16. -/
theorem hexCharVal_lt (c : Char) (v : Nat) (h : hexCharVal c = some v) : v < 16 := by
  simp only [hexCharVal] at h
  by_cases h1 : 48 ≤ c.toNat ∧ c.toNat ≤ 57
  · rw [if_pos h1] at h; cases h; omega
  · rw [if_neg h1] at h
    by_cases h2 : 97 ≤ c.toNat ∧ c.toNat ≤ 102
    · rw [if_pos h2] at h; cases h; omega
    · rw [if_neg h2] at h
      by_cases h3 : 65 ≤ c.toNat ∧ c.toNat ≤ 70
      · rw [if_pos h3] at h; cases h; omega
      · rw [if_neg h3] at h; exact Option.noConfusion h

/-- Hex digit characters parse back to their value. -/
theorem hexCharVal_digitChar : ∀ d < 16, hexCharVal (Nat.digitChar d) = some d := by decide

/-- Every parsed byte is below 256. -/
theorem parseHexChars_lt (bs : Bytes) :
    ∀ cs, parseHexChars cs = some bs → ∀ x ∈ bs, x < 256 := by
  induction bs with
  | nil => intro cs _ x hx; cases hx
  | cons y ys ih =>
    intro cs h x hx
    match cs with
    | [] =>
      simp only [parseHexChars, Option.some.injEq] at h
      exact absurd h (by simp)
    | [c] => exact Option.noConfusion h
    | a :: b :: rest =>
      simp only [parseHexChars] at h
      cases hva : hexCharVal a with
      | none => rw [hva] at h; exact Option.noConfusion h
      | some va =>
        cases hvb : hexCharVal b with
        | none => rw [hva, hvb] at h; exact Option.noConfusion h
        | some vb =>
          rw [hva, hvb] at h
          cases hrest : parseHexChars rest with
          | none => rw [hrest] at h; exact Option.noConfusion h
          | some bs2 =>
            rw [hrest] at h
            simp only [Option.some.injEq, List.cons.injEq] at h
            obtain ⟨hy, hys⟩ := h
            rcases List.mem_cons.mp hx with hx1 | hx2
            · subst hx1
              have hva16 := hexCharVal_lt a va hva
              have hvb16 := hexCharVal_lt b vb hvb
              omega
            · exact ih rest (hys ▸ hrest) x hx2

/-- The hex rendering of one byte prepends exactly two characters. -/
theorem bytesToHex_data_cons (x : Nat) (r : Bytes) :
    (bytesToHex (x :: r)).data =
      Nat.digitChar (x / 16) :: Nat.digitChar (x % 16) :: (bytesToHex r).data := rfl

/-- Parsing the hex rendering of a valid byte sequence recovers it. -/
theorem parseHexChars_bytesToHex (b : Bytes) (h : ∀ x ∈ b, x < 256) :
    parseHexChars (bytesToHex b).data = some b := by
  induction b with
  | nil => rfl
  | cons x r ih =>
    rw [bytesToHex_data_cons]
    have hxlt := h x (List.mem_cons_self x r)
    have h1 : hexCharVal (Nat.digitChar (x / 16)) = some (x / 16) :=
      hexCharVal_digitChar (x / 16) (by omega)
    have h2 : hexCharVal (Nat.digitChar (x % 16)) = some (x % 16) :=
      hexCharVal_digitChar (x % 16) (by omega)
    simp only [parseHexChars, h1, h2, ih (fun y hy => h y (List.mem_cons_of_mem x hy))]
    have hx : x / 16 * 16 + x % 16 = x := by omega
    rw [hx]

/-- The big-endian fold is bounded by the byte length. -/
theorem beBytesToNat_foldl_lt (bs : Bytes) :
    ∀ acc, (∀ x ∈ bs, x < 256) →
      bs.foldl (fun a b => a * 256 + b) acc < (acc + 1) * 256 ^ bs.length := by
  induction bs with
  | nil => intro acc _; simp
  | cons b r ih =>
    intro acc h
    simp only [List.foldl_cons, List.length_cons]
    have hb := h b (List.mem_cons_self b r)
    have hrec := ih (acc * 256 + b) (fun y hy => h y (List.mem_cons_of_mem b hy))
    calc List.foldl (fun a b => a * 256 + b) (acc * 256 + b) r
        < (acc * 256 + b + 1) * 256 ^ r.length := hrec
      _ ≤ ((acc + 1) * 256) * 256 ^ r.length :=
          Nat.mul_le_mul_right _ (by omega)
      _ = (acc + 1) * 256 ^ (r.length + 1) := by ring

/-- Value bound of a valid big-endian byte sequence. -/
theorem beBytesToNat_lt (bs : Bytes) (h : ∀ x ∈ bs, x < 256) :
    beBytesToNat bs < 256 ^ bs.length := by
  have := beBytesToNat_foldl_lt bs 0 h
  simpa [beBytesToNat] using this

/-- Digit count bound of the little-endian expansion. -/
theorem natBytesLE_length_le (f : Nat) :
    ∀ k n, n < 256 ^ k → (natBytesLE f n).length ≤ k := by
  induction f with
  | zero => intro k n _; simp [natBytesLE]
  | succ f ih =>
    intro k n hn
    by_cases h0 : n = 0
    · simp [natBytesLE, h0]
    · simp only [natBytesLE, if_neg h0, List.length_cons]
      match k with
      | 0 => omega
      | k + 1 =>
        have hdiv : n / 256 < 256 ^ k := by
          apply Nat.div_lt_of_lt_mul
          calc n < 256 ^ (k + 1) := hn
            _ = 256 ^ k * 256 := by ring
            _ ≤ 256 * 256 ^ k := by ring_nf; omega
        have := ih k (n / 256) hdiv
        omega

/-- Length bound of the minimal byte representation. -/
theorem natMinBytes_length_le (n : Nat) (h : n < 256 ^ 32) :
    (natMinBytes n).length ≤ 32 := by
  by_cases h0 : n = 0
  · simp [natMinBytes, h0]
  · simp only [natMinBytes, if_neg h0, List.length_reverse]
    exact natBytesLE_length_le n 32 n h

/-- Hex rendering distributes over byte append. -/
theorem bytesToHex_append (a b : Bytes) :
    bytesToHex (a ++ b) = bytesToHex a ++ bytesToHex b := by
  simp only [bytesToHex, List.map_append, List.flatten_append]
  rfl

/-- Hex rendering of a zero block is a block of zero characters. -/
theorem bytesToHex_data_replicate_zero (k : Nat) :
    (bytesToHex (List.replicate k 0)).data = List.replicate (2 * k) '0' := by
  induction k with
  | zero => rfl
  | succ k ih =>
    rw [List.replicate_succ, bytesToHex_data_cons, ih]
    have h2 : 2 * (k + 1) = 2 * k + 1 + 1 := by omega
    rw [h2, List.replicate_succ, List.replicate_succ]
    rfl

/-- Hex rendering doubles the length. -/
theorem bytesToHex_data_length (b : Bytes) :
    (bytesToHex b).data.length = 2 * b.length := by
  induction b with
  | nil => rfl
  | cons x r ih =>
    rw [bytesToHex_data_cons]
    simp only [List.length_cons, ih]
    omega

/-- The 256-bit twos-complement round trip is the identity below 2 ^ 256. -/
theorem toTwos_fromTwos (n : Nat) (h : n < 2 ^ 256) :
    ((if n < 2 ^ 255 then (n : Int) else (n : Int) - 2 ^ 256) % (2 ^ 256 : Int)).toNat = n := by
  have hcast : (n : Int) < 2 ^ 256 := by exact_mod_cast h
  by_cases h255 : n < 2 ^ 255
  · rw [if_pos h255, Int.emod_eq_of_lt (Int.natCast_nonneg n) hcast]
    exact Int.toNat_natCast n
  · rw [if_neg h255, Int.emod_sub_cancel,
      Int.emod_eq_of_lt (Int.natCast_nonneg n) hcast]
    exact Int.toNat_natCast n

/-- Zero padding the minimal hex rendering to 64 characters is the hex
rendering of the full 32-byte word. -/
theorem padWithZeroes_hex_word (n : Nat) (hlen : (natMinBytes n).length ≤ 32) :
    padWithZeroes (bytesToHex (natMinBytes n)) 64 = bytesToHex (natToWord 32 n) := by
  unfold natToWord
  rw [bytesToHex_append]
  unfold padWithZeroes
  have hlendata := bytesToHex_data_length (natMinBytes n)
  have hz := bytesToHex_data_replicate_zero (32 - (natMinBytes n).length)
  have hdata : (bytesToHex (List.replicate (32 - (natMinBytes n).length) 0) ++
      bytesToHex (natMinBytes n)).data =
      List.replicate (2 * (32 - (natMinBytes n).length)) '0' ++
        (bytesToHex (natMinBytes n)).data := by
    rw [← hz]
    rfl
  have harith : 64 - (bytesToHex (natMinBytes n)).data.length =
      2 * (32 - (natMinBytes n).length) := by omega
  apply String.ext
  rw [hdata]
  show List.replicate (64 - (bytesToHex (natMinBytes n)).data.length) '0' ++
      (bytesToHex (natMinBytes n)).data = _
  rw [harith]

/-- C3: sign with a raw private key hashes the pre-image bytes and hands the
digest to the elliptic-curve capability; the r and s components are rendered
as zero-padded 64-hex-character strings (the hex of the full 32-byte word of
their numeric value), v is rendered as hex with no zero-padding, and hex is
0x followed by r, s and v concatenated; sign with an external signer
capability hands the unhashed hex pre-image directly to the capability and
returns the signature record of that capability unchanged. -/
theorem sign_raw_and_external
    (structs : Structs) (keccak : Bytes → Bytes)
    (ecSign : String → Bytes → RawSigComponents) (fuel : Nat)
    (payload : EIP712Payload) (sk : String) (ext : String → EIP712Signature)
    (b rb sb : Bytes)
    (henc : encodeBytes structs keccak fuel payload false = .ok b)
    (hvalid : ∀ x ∈ b, x < 256)
    (hr : parseHexBytes (String.mk ((ecSign sk (keccak b)).r.data.drop 2)) = some rb)
    (hs : parseHexBytes (String.mk ((ecSign sk (keccak b)).s.data.drop 2)) = some sb)
    (hrlen : rb.length = 32) (hslen : sb.length = 32) :
    sign structs keccak ecSign fuel (.raw sk) payload false =
      .ok { hex := "0x" ++ bytesToHex (natToWord 32 (beBytesToNat rb)) ++
                    bytesToHex (natToWord 32 (beBytesToNat sb)) ++
                    natToHexStr (ecSign sk (keccak b)).v,
            v := (ecSign sk (keccak b)).v,
            r := bytesToHex (natToWord 32 (beBytesToNat rb)),
            s := bytesToHex (natToWord 32 (beBytesToNat sb)) } ∧
    sign structs keccak ecSign fuel (.ext ext) payload false =
      .ok (ext ("0x" ++ bytesToHex b)) := by
  have hencstr : encode structs keccak fuel payload false = .ok ("0x" ++ bytesToHex b) := by
    simp [encode, henc]
  have hdrop : ("0x" ++ bytesToHex b).data.drop 2 = (bytesToHex b).data := by
    cases hbx : bytesToHex b with
    | mk l => rfl
  have hparse : parseHexBytes (String.mk (("0x" ++ bytesToHex b).data.drop 2)) = some b := by
    rw [hdrop]
    show parseHexChars (bytesToHex b).data = some b
    exact parseHexChars_bytesToHex b hvalid
  have hrval : ∀ x ∈ rb, x < 256 := parseHexChars_lt rb _ hr
  have hsval : ∀ x ∈ sb, x < 256 := parseHexChars_lt sb _ hs
  have hpow : (256 : Nat) ^ 32 = 2 ^ 256 := by norm_num
  have hrb32 : beBytesToNat rb < 256 ^ 32 := by
    have := beBytesToNat_lt rb hrval
    rw [hrlen] at this
    exact this
  have hsb32 : beBytesToNat sb < 256 ^ 32 := by
    have := beBytesToNat_lt sb hsval
    rw [hslen] at this
    exact this
  have hrb : beBytesToNat rb < 2 ^ 256 := by omega
  have hsb : beBytesToNat sb < 2 ^ 256 := by omega
  have hfr : fromSigned (ecSign sk (keccak b)).r =
      some (if beBytesToNat rb < 2 ^ 255 then (beBytesToNat rb : Int)
            else (beBytesToNat rb : Int) - 2 ^ 256) := by
    simp only [fromSigned, hr]
  have hfs : fromSigned (ecSign sk (keccak b)).s =
      some (if beBytesToNat sb < 2 ^ 255 then (beBytesToNat sb : Int)
            else (beBytesToNat sb : Int) - 2 ^ 256) := by
    simp only [fromSigned, hs]
  have htr : toUnsigned (if beBytesToNat rb < 2 ^ 255 then (beBytesToNat rb : Int)
      else (beBytesToNat rb : Int) - 2 ^ 256) = natMinBytes (beBytesToNat rb) := by
    unfold toUnsigned
    rw [toTwos_fromTwos (beBytesToNat rb) hrb]
  have hts : toUnsigned (if beBytesToNat sb < 2 ^ 255 then (beBytesToNat sb : Int)
      else (beBytesToNat sb : Int) - 2 ^ 256) = natMinBytes (beBytesToNat sb) := by
    unfold toUnsigned
    rw [toTwos_fromTwos (beBytesToNat sb) hsb]
  have hpr : padWithZeroes (bytesToHex (natMinBytes (beBytesToNat rb))) 64 =
      bytesToHex (natToWord 32 (beBytesToNat rb)) :=
    padWithZeroes_hex_word _ (natMinBytes_length_le _ hrb32)
  have hps : padWithZeroes (bytesToHex (natMinBytes (beBytesToNat sb))) 64 =
      bytesToHex (natToWord 32 (beBytesToNat sb)) :=
    padWithZeroes_hex_word _ (natMinBytes_length_le _ hsb32)
  constructor
  · simp only [sign, hencstr, Bind.bind, Except.bind, hparse, hfr, hfs, htr, hts, hpr, hps]
  · simp only [sign, hencstr, Bind.bind, Except.bind]

/-- A degenerate elliptic-curve signing capability returning fixed
components. -/
def ecSignFixed : String → Bytes → RawSigComponents :=
  fun _ _ => ⟨"0x0000000000000000000000000000000000000000000000000000000000000001",
              "0x00000000000000000000000000000000000000000000000000000000000000ff", 27⟩

/-- Witness for C3 on the concrete Mail payload: raw-key rendering and
external-signer pass-through. -/
theorem sign_raw_and_external_witness :
    sign structsMail keccakOnes ecSignFixed 10 (.raw "0x01") payloadMail false =
      .ok { hex := "0x" ++
              bytesToHex (natToWord 32 (beBytesToNat (List.replicate 31 0 ++ [1]))) ++
              bytesToHex (natToWord 32 (beBytesToNat (List.replicate 31 0 ++ [255]))) ++
              natToHexStr 27,
            v := 27,
            r := bytesToHex (natToWord 32 (beBytesToNat (List.replicate 31 0 ++ [1]))),
            s := bytesToHex (natToWord 32 (beBytesToNat (List.replicate 31 0 ++ [255]))) } ∧
    sign structsMail keccakOnes ecSignFixed 10
        (.ext (fun p => ⟨p, 0, "", ""⟩)) payloadMail false =
      .ok ⟨"0x" ++ bytesToHex ([25, 1] ++ List.replicate 32 1 ++ List.replicate 32 1), 0, "", ""⟩ := by
  have h := sign_raw_and_external structsMail keccakOnes ecSignFixed 10 payloadMail
    "0x01" (fun p => ⟨p, 0, "", ""⟩)
    ([25, 1] ++ List.replicate 32 1 ++ List.replicate 32 1)
    (List.replicate 31 0 ++ [1]) (List.replicate 31 0 ++ [255])
    (by rfl) (by decide) (by rfl) (by rfl) (by rfl) (by rfl)
  exact h
